import Mathlib

/-!
Verification of the tree-forge ASCII-tree parser and path-validation engine.

This file shallowly embeds the TypeScript sources:
- `src/path-utils.ts` (class `PathValidator`: `validatePath`, `normalizePath`,
  `resolveConflict` and the strategy helpers `renameNumbered`,
  `renameTimestamp`, `replaceInvalidChars`, `stripInvalidChars`, `encodePath`,
  `transliteratePath`, `truncatePath`, `hashPath`, `shortenPath`,
  `handleViolation`),
- `dist/parser.js` (function `parseTree` with `removeMultilineComments`,
  `splitDepth`, `detectIndentUnit`),
- `src/validator.ts` (`validateComments`, `validateTree`).

Strings are processed as `List Char`; JavaScript `Set`/`Map` objects are
insertion-ordered association lists.  JavaScript regular expressions are
translated by hand into equivalent character-level scans; each translation is
documented at its definition.  Mutable class state (`seenPaths`,
`seenNames`) is passed explicitly as a `Session` value and returned.
-/

/-! ## Generic string helpers (JS string primitives) -/

/-- Character membership in a list. -/
def charMem (c : Char) (l : List Char) : Bool := l.contains c

/-- JS `String.prototype.includes(".")` specialised to a single character. -/
def strHasChar (s : String) (c : Char) : Bool := s.data.contains c

/-- JS `s.startsWith(p)`. -/
def strStartsWith (s p : String) : Bool := p.data.isPrefixOf s.data

/-- JS `s.endsWith(p)`. -/
def strEndsWith (s p : String) : Bool := p.data.reverse.isPrefixOf s.data.reverse

/-- JS whitespace test (`\s`): we use Lean's `Char.isWhitespace`. -/
def isWsChar (c : Char) : Bool := c.isWhitespace

/-- Drop leading whitespace of a character list. -/
def dropLeadingWs (cs : List Char) : List Char := cs.dropWhile isWsChar

/-- JS `s.trim()` on a character list. -/
def trimChars (cs : List Char) : List Char :=
  ((cs.dropWhile isWsChar).reverse.dropWhile isWsChar).reverse

/-- JS `s.trim()`. -/
def jsTrim (s : String) : String := ⟨trimChars s.data⟩

/-- JS `s.replace(/\s+$/g, "")` (trim trailing whitespace only). -/
def jsTrimEnd (s : String) : String := ⟨(s.data.reverse.dropWhile isWsChar).reverse⟩

/-- Split a character list at every occurrence of the separator character,
    like JS `s.split("/")` (always at least one piece, empty pieces kept). -/
def splitCharList (sep : Char) : List Char → List (List Char)
  | [] => [[]]
  | c :: rest =>
    let r := splitCharList sep rest
    if c = sep then [] :: r
    else match r with
      | [] => [[c]]
      | p :: ps => (c :: p) :: ps

/-- JS `s.split(sep)` for a one-character separator. -/
def jsSplit (s : String) (sep : Char) : List String :=
  (splitCharList sep s.data).map (fun cs => ⟨cs⟩)

/-- Join a list of strings with a separator, like JS `Array.prototype.join`. -/
def jsJoin (sep : String) (l : List String) : String :=
  match l with
  | [] => ""
  | x :: xs => xs.foldl (fun acc p => acc ++ sep ++ p) x

/-- Index of the first occurrence of `pat` in `cs`, if any
    (JS `String.prototype.indexOf`). -/
def firstIndexOf (cs pat : List Char) : Option Nat :=
  match cs with
  | [] => if pat = [] then some 0 else none
  | _ :: rest =>
    if pat.isPrefixOf cs then some 0
    else (firstIndexOf rest pat).map (· + 1)

/-- JS `s.replace(pat, repl)` with a *string* pattern: replaces only the
    first occurrence. -/
def replaceFirst (s pat repl : String) : String :=
  match firstIndexOf s.data pat.data with
  | none => s
  | some i => ⟨s.data.take i ++ repl.data ++ s.data.drop (i + pat.data.length)⟩

/-- JS `String(n).padStart(width, "0")`. -/
def padStart (s : String) (width : Nat) (c : Char) : String :=
  ⟨List.replicate (width - s.data.length) c ++ s.data⟩

/-- Directory prefix of a path: `path.substring(0, path.lastIndexOf("/") + 1)`.
    Implemented by splitting the reversed character list at the first `/`. -/
def dirOfPath (s : String) : String :=
  let rev := s.data.reverse
  let afterName := rev.dropWhile (fun c => c ≠ '/')
  ⟨afterName.reverse⟩

/-- Basename of a path: `path.substring(dir.length)` for `dir = dirOfPath path`. -/
def baseAfterDir (s : String) : String :=
  ⟨(s.data.reverse.takeWhile (fun c => c ≠ '/')).reverse⟩

/-- The suffix matched by the JS regex `/\.[^.]+$/` (a dot followed by one or
    more non-dot characters, anchored at the end), or `""` when there is no
    match.  The match, when it exists, starts at the last dot of the string. -/
def extSuffix (s : String) : String :=
  let rev := s.data.reverse
  let tailPart := rev.takeWhile (fun c => c ≠ '.')
  let rest := rev.dropWhile (fun c => c ≠ '.')
  match rest with
  | '.' :: _ => if tailPart = [] then "" else ⟨'.' :: tailPart.reverse⟩
  | _ => ""

/-- JS `name.replace(/\.[^.]+$/, "")`: the string with `extSuffix` removed. -/
def dropExtSuffix (s : String) : String :=
  ⟨s.data.take (s.data.length - (extSuffix s).data.length)⟩

/-- JS `parts[parts.length - 1]` for a nonempty array produced by `split`. -/
def lastPart (l : List String) : String := l.getLast?.getD ""

/-- JS `s.toUpperCase()` (ASCII range; every string this development
    evaluates case mapping on is ASCII). -/
def jsToUpper (s : String) : String := ⟨s.data.map Char.toUpper⟩

/-- JS `s.toLowerCase()` (ASCII range). -/
def jsToLower (s : String) : String := ⟨s.data.map Char.toLower⟩

/-! ## Data model of `path-utils.ts` -/

/-- Character class of the default `allowedChars` pattern
    `"^[a-zA-Z0-9-_.]+$"`. -/
def isDefaultAllowedChar (c : Char) : Bool :=
  c.isAlpha || c.isDigit || c = '-' || c = '_' || c = '.'

/-- Full-string test of the default pattern `^[a-zA-Z0-9-_.]+$`:
    nonempty and every character in the class. -/
def defaultAllowedTest (s : String) : Bool :=
  !s.data.isEmpty && s.data.all isDefaultAllowedChar

/-- Embeds `PathValidationRules` with every field defaulted as in the
    `PathValidator` constructor.  The compiled regex
    `new RegExp(rules.allowedChars)` together with `.test` is modelled as the
    Boolean-valued function `allowedChars`; the validator only ever calls
    `.test` on whole names and on one-character strings. -/
structure Rules where
  maxDepth : Nat
  maxPathLength : Nat
  maxNameLength : Nat
  allowedChars : String → Bool
  allowedCharsPattern : String
  disallowedNames : List String
  enforceCase : String
  allowDots : Bool
  allowSpaces : Bool
  requireExtensions : Bool
  allowedExtensions : List String
  uniqueNames : Bool
  uniquePaths : Bool
  normalizeSlashes : Bool
  trimWhitespace : Bool
  resolveRelative : Bool

/-- Constructor defaults of `PathValidator` for the rules bundle. -/
def defaultRules : Rules where
  maxDepth := 32
  maxPathLength := 260
  maxNameLength := 255
  allowedChars := defaultAllowedTest
  allowedCharsPattern := "^[a-zA-Z0-9-_.]+$"
  disallowedNames := ["CON", "PRN", "AUX", "NUL", "COM1", "COM2", "COM3",
    "COM4", "COM5", "COM6", "COM7", "COM8", "COM9", "LPT1", "LPT2", "LPT3",
    "LPT4", "LPT5", "LPT6", "LPT7", "LPT8", "LPT9"]
  enforceCase := "any"
  allowDots := false
  allowSpaces := false
  requireExtensions := false
  allowedExtensions := []
  uniqueNames := true
  uniquePaths := true
  normalizeSlashes := true
  trimWhitespace := true
  resolveRelative := false

/-- Embeds `PathConflictStrategy` with the constructor defaults.  Only the built-in
    string-valued strategy modes are modelled (the `typeof === 'function'`
    custom-resolver escape hatch is out of scope); the transliteration map is
    an association list keyed by single characters, matching the object
    indexing `transliterationMap[c]`. -/
structure Strategy where
  onDuplicatePath : String
  onDuplicateName : String
  onInvalidChars : String
  onLongPath : String
  renamePattern : String
  replacementChar : String
  hashAlgorithm : String
  transliterationMap : List (Char × String)
  preserveExtension : Bool
  maxAttempts : Nat
  counterStart : Nat
  counterPadding : Nat

/-- Constructor defaults of `PathValidator` for the strategy bundle. -/
def defaultStrategy : Strategy where
  onDuplicatePath := "error"
  onDuplicateName := "error"
  onInvalidChars := "error"
  onLongPath := "error"
  renamePattern := "\x7bname\x7d-\x7bn\x7d"
  replacementChar := "_"
  hashAlgorithm := "sha256"
  transliterationMap := []
  preserveExtension := true
  maxAttempts := 100
  counterStart := 1
  counterPadding := 3

/-- The mutable `PathValidator` state: `seenPaths : Set<string>` and
    `seenNames : Map<string, Set<string>>`, both insertion ordered. -/
structure Session where
  seenPaths : List String
  seenNames : List (String × List String)
deriving DecidableEq

/-- A fresh session (`new PathValidator()` state). -/
def emptySession : Session := ⟨[], []⟩

/-- JS `Set.prototype.add` (no-op when the element is present). -/
def setAdd (l : List String) (x : String) : List String :=
  if l.contains x then l else l ++ [x]

/-- JS `Map.prototype.get` returning `undefined` as `none`. -/
def mapGet (m : List (String × List String)) (k : String) : Option (List String) :=
  (m.find? (fun p => p.1 = k)).map (·.2)

/-- JS `Map.prototype.set` (replace or append). -/
def mapSet (m : List (String × List String)) (k : String) (v : List String) :
    List (String × List String) :=
  if (m.find? (fun p => p.1 = k)).isSome then
    m.map (fun p => if p.1 = k then (k, v) else p)
  else m ++ [(k, v)]

/-! ## POSIX `path.join` / `path.normalize` (Node `path` module, used by the
    `resolveRelative` branch and by the parser's `targetDir` rebase) -/

/-- Resolve `.` and `..` segments (Node `normalizeString`; `..` escapes
    upward only for relative paths).  The accumulator is reversed. -/
def posixNormSegs (isAbs : Bool) (segs : List String) : List String :=
  (segs.foldl
    (fun acc seg =>
      if seg = "." then acc
      else if seg = ".." then
        match acc with
        | [] => if isAbs then [] else [".."]
        | t :: rest => if t = ".." then seg :: acc else rest
      else seg :: acc)
    []).reverse

/-- Node `path.posix.normalize`. -/
def normalizeStringPosix (s : String) : String :=
  let isAbs := strStartsWith s "/"
  let trailing := strEndsWith s "/"
  let segs := (jsSplit s '/').filter (fun p => p ≠ "")
  let core := jsJoin "/" (posixNormSegs isAbs segs)
  if core = "" then (if isAbs then "/" else if trailing then "./" else ".")
  else
    let core := if trailing then core ++ "/" else core
    if isAbs then "/" ++ core else core

/-- Node `path.posix.join(a, b)`. -/
def pathJoin (a b : String) : String :=
  let parts := [a, b].filter (fun p => p ≠ "")
  if parts.isEmpty then "." else normalizeStringPosix (jsJoin "/" parts)

/-! ## `PathValidator.normalizePath` -/

/-- One pass of JS `replace(/[\\/]+/g, "/")`: collapse every run of slashes
    and backslashes into a single forward slash. -/
def collapseSlashRuns (cs : List Char) : List Char :=
  (cs.foldl
    (fun (st : List Char × Bool) c =>
      if c = '/' || c = '\\' then
        if st.2 then st else (st.1 ++ ['/'], true)
      else (st.1 ++ [c], false))
    ([], false)).1

/-- Embeds `PathValidator.normalizePath`: collapse slash runs, trim each
    segment, and (when `resolveRelative`) apply `path.normalize` followed by
    another slash collapse. -/
def normalizePath (rules : Rules) (filePath : String) : String :=
  let n1 := if rules.normalizeSlashes then (⟨collapseSlashRuns filePath.data⟩ : String)
            else filePath
  let n2 := if rules.trimWhitespace then jsJoin "/" ((jsSplit n1 '/').map jsTrim)
            else n1
  if rules.resolveRelative then
    ⟨collapseSlashRuns (normalizeStringPosix n2).data⟩
  else n2

/-! ## Strategy helpers of `PathValidator` -/

/-- Embeds `PathValidator.renameNumbered` loop body.  The source iterates
    `i = counterStart, …, counterStart + maxAttempts - 1`; `fuel` counts the
    remaining iterations.  The session is threaded through untouched: the
    loop only reads `seenPaths`. -/
def renameNumberedLoop (pattern dir ext : String) (padding : Nat) (origPath : String) :
    Nat → Nat → Session → String × Session
  | _, 0, s => (origPath, s)
  | i, fuel + 1, s =>
    let num := padStart (toString i) padding '0'
    let newName := replaceFirst pattern "\x7bn\x7d" num ++ ext
    let newPath := dir ++ newName
    if s.seenPaths.contains newPath then
      renameNumberedLoop pattern dir ext padding origPath (i + 1) fuel s
    else (newPath, s)

/-- Embeds `PathValidator.renameNumbered`. -/
def renameNumbered (strat : Strategy) (path ext : String) (s : Session) :
    String × Session :=
  let dir := dirOfPath path
  let baseName := dropExtSuffix (baseAfterDir path)
  let pattern := replaceFirst strat.renamePattern "\x7bname\x7d" baseName
  renameNumberedLoop pattern dir ext strat.counterPadding path
    strat.counterStart strat.maxAttempts s

/-- Embeds `PathValidator.renameTimestamp`.  `new Date().toISOString()` is a wall
    clock read; the already-formatted timestamp (colons and dots replaced by
    `-`) is supplied by the caller as `now`. -/
def renameTimestamp (path ext now : String) (s : Session) : String × Session :=
  let dir := dirOfPath path
  let baseName := dropExtSuffix (baseAfterDir path)
  (dir ++ baseName ++ "-" ++ now ++ ext, s)

/-- Embeds `PathValidator.replaceInvalidChars`: per-character test of the compiled
    `allowedChars` regex against the one-character string, keeping matching
    characters and substituting the replacement string otherwise. -/
def replaceInvalidChars (rules : Rules) (path replacement : String) (s : Session) :
    String × Session :=
  (⟨(path.data.map (fun c =>
      if rules.allowedChars ⟨[c]⟩ then [c] else replacement.data)).flatten⟩, s)

/-- Embeds `PathValidator.stripInvalidChars`. -/
def stripInvalidChars (rules : Rules) (path : String) (s : Session) :
    String × Session :=
  (⟨path.data.filter (fun c => rules.allowedChars ⟨[c]⟩)⟩, s)

/-- Characters left unescaped by JS `encodeURIComponent`. -/
def isUriUnreserved (c : Char) : Bool :=
  c.isAlpha || c.isDigit || charMem c ['-', '_', '.', '!', '~', '*', Char.ofNat 39, '(', ')']

/-- Uppercase hexadecimal digit for a value below 16. -/
def hexDigit (n : Nat) : Char :=
  if n < 10 then Char.ofNat ('0'.toNat + n) else Char.ofNat ('A'.toNat + (n - 10))

/-- Percent-encoding of one byte. -/
def pctByte (b : Nat) : List Char := ['%', hexDigit (b / 16), hexDigit (b % 16)]

/-- UTF-8 bytes of a character (code points below `0x110000`). -/
def utf8Bytes (c : Char) : List Nat :=
  let n := c.toNat
  if n < 0x80 then [n]
  else if n < 0x800 then [0xC0 + n / 64, 0x80 + n % 64]
  else if n < 0x10000 then [0xE0 + n / 4096, 0x80 + n / 64 % 64, 0x80 + n % 64]
  else [0xF0 + n / 262144, 0x80 + n / 4096 % 64, 0x80 + n / 64 % 64, 0x80 + n % 64]

/-- Embeds `PathValidator.encodePath`: `encodeURIComponent` then
    `replace(/%2F/g, "/")`.  Since `%2F` is exactly the escape produced for
    `/`, the composition keeps `/` literal and escapes the other reserved
    characters. -/
def encodePath (path : String) (s : Session) : String × Session :=
  (⟨(path.data.map (fun c =>
      if isUriUnreserved c || c = '/' then [c]
      else (utf8Bytes c).map pctByte |>.flatten)).flatten⟩, s)

/-- Value substituted for one character by `transliterationMap[c] || c`
    (an empty-string value is falsy in JS, so the character is kept). -/
def transChar (m : List (Char × String)) (c : Char) : String :=
  match (m.find? (fun p => p.1 = c)).map (·.2) with
  | some v => if v = "" then ⟨[c]⟩ else v
  | none => ⟨[c]⟩

/-- Embeds `PathValidator.transliteratePath`. -/
def transliteratePath (m : List (Char × String)) (path : String) (s : Session) :
    String × Session :=
  (⟨(path.data.map (fun c => (transChar m c).data)).flatten⟩, s)

/-- Embeds `PathValidator.truncatePath`. -/
def truncatePath (path : String) (maxLength : Nat) (ext : String) (s : Session) :
    String × Session :=
  if path.data.length ≤ maxLength then (path, s)
  else
    let dir := dirOfPath path
    let baseName := dropExtSuffix (baseAfterDir path)
    let available : Int := (maxLength : Int) - dir.data.length - ext.data.length
    if available < 1 then (path, s)
    else (dir ++ ⟨baseName.data.take available.toNat⟩ ++ ext, s)

/-- Embeds `PathValidator.hashPath`.  The `crypto` digest is an external primitive;
    the caller supplies `digest` mapping the base name to its hex digest for
    the configured algorithm, of which the first 8 characters are kept. -/
def hashPath (digest : String → String) (path ext : String) (s : Session) :
    String × Session :=
  let dir := dirOfPath path
  let baseName := dropExtSuffix (baseAfterDir path)
  (dir ++ ⟨(digest baseName).data.take 8⟩ ++ ext, s)

/-- Embeds `PathValidator.shortenPath`.  The loop guard `path.length > maxLength`
    tests the *unchanged* `path` parameter, so once entered the loop visits
    every directory segment with index `≥ 1`. -/
def shortenPath (path : String) (maxLength : Nat) (ext : String) (s : Session) :
    String × Session :=
  if path.data.length ≤ maxLength then (path, s)
  else
    let parts := jsSplit path '/'
    let fileName := parts.getLast?.getD ""
    let dirs := parts.dropLast
    let dirs' := dirs.enum.map (fun p =>
      if p.1 ≥ 1 && p.2.data.length > 3 then (⟨p.2.data.take 3⟩ : String) else p.2)
    let newPath := jsJoin "/" (dirs' ++ [fileName])
    if newPath.data.length > maxLength then truncatePath newPath maxLength ext s
    else (newPath, s)

/-! ## `PathValidator.resolveConflict` and `handleViolation` -/

/-- Details record passed alongside a violation (the fields of the ad-hoc
    objects built in `validatePath`). -/
structure Details where
  path : String
  name : Option String := none
  length : Option Nat := none
  maxLength : Option Nat := none
  depth : Option Nat := none
  maxDepth : Option Nat := none
  pattern : Option String := none
  requiredCase : Option String := none
  extension : Option String := none
  allowedExtensions : List String := []
  directory : Option String := none
deriving DecidableEq

/-- Embeds `PathValidator.resolveConflict`.  `details.maxLength as number` is only
    read in the `longPath` branch, where `validatePath` always supplies it;
    absence is defaulted to `0`. -/
def resolveConflict (rules : Rules) (strat : Strategy) (digest : String → String)
    (now : String) (path : String) (code : String) (details : Details)
    (s : Session) : String × Session :=
  let ext := if strat.preserveExtension then extSuffix path else ""
  if code = "duplicatePath" then
    if strat.onDuplicatePath = "numbered" then renameNumbered strat path ext s
    else if strat.onDuplicatePath = "timestamp" then renameTimestamp path ext now s
    else if strat.onDuplicatePath = "merge" then (path, s)
    else if strat.onDuplicatePath = "skip" then ("", s)
    else (path, s)
  else if code = "duplicateName" then
    if strat.onDuplicateName = "numbered" then renameNumbered strat path ext s
    else if strat.onDuplicateName = "timestamp" then renameTimestamp path ext now s
    else if strat.onDuplicateName = "skip" then ("", s)
    else (path, s)
  else if code = "invalidChars" then
    if strat.onInvalidChars = "replace" then
      replaceInvalidChars rules path strat.replacementChar s
    else if strat.onInvalidChars = "strip" then stripInvalidChars rules path s
    else if strat.onInvalidChars = "encode" then encodePath path s
    else if strat.onInvalidChars = "transliterate" then
      transliteratePath strat.transliterationMap path s
    else (path, s)
  else if code = "longPath" then
    if strat.onLongPath = "truncate" then
      truncatePath path (details.maxLength.getD 0) ext s
    else if strat.onLongPath = "hash" then hashPath digest path ext s
    else if strat.onLongPath = "shorten" then
      shortenPath path (details.maxLength.getD 0) ext s
    else (path, s)
  else (path, s)

/-- One reported `PathValidationError`; `resolvedPath` is the final
    `details.resolvedPath` value (`resolvedPath || path`). -/
structure PathError where
  typ : String
  code : String
  message : String
  path : String
  details : Details
  resolvedPath : String
deriving DecidableEq

/-- Render an optional value the way a JS template literal renders
    `undefined`. -/
def optStr (o : Option String) : String := o.getD "undefined"

/-- Render an optional number the way a JS template literal renders
    `undefined`. -/
def optNat (o : Option Nat) : String :=
  match o with
  | some n => toString n
  | none => "undefined"

/-- Embeds `PathValidator.handleViolation`. -/
def handleViolation (rules : Rules) (strat : Strategy) (digest : String → String)
    (now : String) (code : String) (details : Details) (s : Session) :
    PathError × Session :=
  let path := details.path
  let run := fun (s' : Session) => resolveConflict rules strat digest now path code details s'
  let (typ, message, resolvedPath, s1) :=
    if code = "longPath" then
      let (rp, s') := run s
      ((if strat.onLongPath = "warn" then "warning" else "error"),
       "Path exceeds maximum length of " ++ optNat details.maxLength ++ " characters",
       rp, s')
    else if code = "maxDepth" then
      ("error", "Path exceeds maximum depth of " ++ optNat details.maxDepth ++ " levels", "", s)
    else if code = "longName" then
      ("error", "Name exceeds maximum length of " ++ optNat details.maxLength ++ " characters", "", s)
    else if code = "invalidChars" then
      let (rp, s') := run s
      ((if strat.onInvalidChars = "warn" then "warning" else "error"),
       "Name contains invalid characters (must match " ++ optStr details.pattern ++ ")",
       rp, s')
    else if code = "reservedName" then
      ("error", "\"" ++ optStr details.name ++ "\" is a reserved name", "", s)
    else if code = "wrongCase" then
      ("error", "Name must be " ++ optStr details.requiredCase ++ "case", "", s)
    else if code = "dotsInDir" then
      ("error", "Directory names cannot contain dots", "", s)
    else if code = "spacesInPath" then
      ("error", "Path cannot contain spaces", "", s)
    else if code = "missingExtension" then
      ("error", "Files must have extensions", "", s)
    else if code = "invalidExtension" then
      ("error", "Invalid file extension (allowed: " ++
        jsJoin ", " details.allowedExtensions ++ ")", "", s)
    else if code = "duplicatePath" then
      let (rp, s') := run s
      ((if strat.onDuplicatePath = "warn" then "warning" else "error"),
       "Duplicate path", rp, s')
    else if code = "duplicateName" then
      let (rp, s') := run s
      ((if strat.onDuplicateName = "warn" then "warning" else "error"),
       "Duplicate name \"" ++ optStr details.name ++ "\" in directory", rp, s')
    else ("error", "", "", s)
  ({ typ := typ, code := code, message := message, path := path,
     details := details,
     resolvedPath := if resolvedPath = "" then path else resolvedPath }, s1)

/-! ## `PathValidator.validatePath` -/

/-- Node's `path.extname` restricted to a bare file name (no separators):
    the suffix from the last dot, unless that dot is the first character. -/
def extnameOf (name : String) : String :=
  let rev := name.data.reverse
  let tailPart := rev.takeWhile (fun c => c ≠ '.')
  let rest := rev.dropWhile (fun c => c ≠ '.')
  match rest with
  | '.' :: before => if before = [] then "" else ⟨'.' :: tailPart.reverse⟩
  | _ => ""

/-- In `resolveConflict` the dead locals `name`/`baseNameWithoutExt` are not
    modelled.  `validatePath`, translated check by check in source order; the
    session is mutated exactly at the `seenPaths.add` and `seenNames` update
    sites. -/
def validatePath (rules : Rules) (strat : Strategy) (digest : String → String)
    (now : String) (filePath : String) (s : Session) :
    List PathError × Session :=
  let normalizedPath := normalizePath rules filePath
  let parts := jsSplit normalizedPath '/'
  let name := lastPart parts
  let parentDir := jsJoin "/" parts.dropLast
  let hv := fun code details s' => handleViolation rules strat digest now code details s'
  -- Check path length
  let (e1, s) := if normalizedPath.data.length > rules.maxPathLength then
      let (e, s') := hv "longPath"
        { path := normalizedPath, length := some normalizedPath.data.length,
          maxLength := some rules.maxPathLength } s
      ([e], s')
    else ([], s)
  -- Check depth
  let (e2, s) := if parts.length > rules.maxDepth then
      let (e, s') := hv "maxDepth"
        { path := normalizedPath, depth := some parts.length,
          maxDepth := some rules.maxDepth } s
      ([e], s')
    else ([], s)
  -- Check name length
  let (e3, s) := if name.data.length > rules.maxNameLength then
      let (e, s') := hv "longName"
        { path := normalizedPath, name := some name,
          length := some name.data.length,
          maxLength := some rules.maxNameLength } s
      ([e], s')
    else ([], s)
  -- Check allowed characters
  let (e4, s) := if !rules.allowedChars name then
      let (e, s') := hv "invalidChars"
        { path := normalizedPath, name := some name,
          pattern := some rules.allowedCharsPattern } s
      ([e], s')
    else ([], s)
  -- Check disallowed names
  let (e5, s) := if rules.disallowedNames.contains (jsToUpper name) then
      let (e, s') := hv "reservedName" { path := normalizedPath, name := some name } s
      ([e], s')
    else ([], s)
  -- Check case requirements
  let (e6, s) := if rules.enforceCase ≠ "any" then
      let isCorrectCase := if rules.enforceCase = "lower" then name = jsToLower name
        else name = jsToUpper name
      if !isCorrectCase then
        let (e, s') := hv "wrongCase"
          { path := normalizedPath, name := some name,
            requiredCase := some rules.enforceCase } s
        ([e], s')
      else ([], s)
    else ([], s)
  -- Check dots in directory names: the final operand repeats the defining
  -- expression of `name` (`parts[parts.length - 1]`), as in the source.
  let (e7, s) := if !rules.allowDots && strHasChar name '.'
      && !(strHasChar (lastPart parts) '.') then
      let (e, s') := hv "dotsInDir" { path := normalizedPath, name := some name } s
      ([e], s')
    else ([], s)
  -- Check spaces
  let (e8, s) := if !rules.allowSpaces && normalizedPath.data.any isWsChar then
      let (e, s') := hv "spacesInPath" { path := normalizedPath } s
      ([e], s')
    else ([], s)
  -- Check file extensions
  let (e9, s) := if rules.requireExtensions && !strHasChar name '.'
      && strHasChar (lastPart parts) '.' then
      let (e, s') := hv "missingExtension" { path := normalizedPath, name := some name } s
      ([e], s')
    else ([], s)
  let (e10, s) := if rules.allowedExtensions.length > 0 then
      let ext := jsToLower (extnameOf name)
      if ext ≠ "" && !rules.allowedExtensions.contains ext then
        let (e, s') := hv "invalidExtension"
          { path := normalizedPath, extension := some ext,
            allowedExtensions := rules.allowedExtensions } s
        ([e], s')
      else ([], s)
    else ([], s)
  -- Check unique paths
  let (e11, s) := if rules.uniquePaths && s.seenPaths.contains normalizedPath then
      let (e, s') := hv "duplicatePath" { path := normalizedPath } s
      ([e], s')
    else ([], s)
  let s := { s with seenPaths := setAdd s.seenPaths normalizedPath }
  -- Check unique names within directories
  let (e12, s) := if rules.uniqueNames then
      let dirNames := (mapGet s.seenNames parentDir).getD []
      let (e, s') := if dirNames.contains name then
          let (e, s') := hv "duplicateName"
            { path := normalizedPath, name := some name, directory := some parentDir } s
          ([e], s')
        else ([], s)
      (e, { s' with seenNames := mapSet s'.seenNames parentDir (setAdd dirNames name) })
    else ([], s)
  (e1 ++ e2 ++ e3 ++ e4 ++ e5 ++ e6 ++ e7 ++ e8 ++ e9 ++ e10 ++ e11 ++ e12, s)

/-! ## Data model of the parser (`dist/parser.js`, `src/validator.ts`) -/

/-- A parsed tree node (`TreeNode` in `types.ts`); `kind` is the literal
    `"dir"` or `"file"`. -/
inductive TreeNode where
  | mk (name : String) (path : String) (kind : String)
      (children : List TreeNode) (hint : Option String)

/-- Name of a node. -/
def TreeNode.name : TreeNode → String
  | .mk n _ _ _ _ => n

/-- Path of a node. -/
def TreeNode.path : TreeNode → String
  | .mk _ p _ _ _ => p

/-- Kind of a node. -/
def TreeNode.kind : TreeNode → String
  | .mk _ _ k _ _ => k

/-- Children of a node. -/
def TreeNode.children : TreeNode → List TreeNode
  | .mk _ _ _ cs _ => cs

/-- The `treeStyle` glyph set of the configuration; the four glyphs are
    single characters (they populate a one-character regex class). -/
structure TreeStyle where
  vertical : Char
  horizontal : Char
  corner : Char
  branch : Char
  indent : String
deriving DecidableEq

/-- The slice of `ForgeConfig` the parser reads.  `tabIndentationSize = 0`
    models an unset (falsy) size, defaulted to 2 by `|| 2`;
    `pathNormalizationBase` models `cfg.pathNormalization?.base`. -/
structure ForgeCfg where
  targetDir : String
  detectAsciiGuides : Bool
  tabIndentationSize : Nat
  treeStyle : Option TreeStyle
  pathNormalizationBase : Option String
deriving DecidableEq

/-- Split raw text into lines, like JS `text.split(/\r?\n/)`. -/
def jsLines (text : String) : List String :=
  (splitCharList '\n' text.data).map (fun cs =>
    if cs.getLast? = some '\r' then ⟨cs.dropLast⟩ else ⟨cs⟩)

/-- One global pass of `text.replace(open…close, '')` for a *lazy* block
    pattern such as `/\/\*[\s\S]*?\*\//g`: repeatedly delete from the first
    occurrence of the opener to the first closer after it; an opener with no
    later closer matches nothing.  `fuel` bounds the recursion by the text
    length. -/
def removeBlockFuel (openT closeT : List Char) : Nat → List Char → List Char
  | 0, cs => cs
  | fuel + 1, cs =>
    match firstIndexOf cs openT with
    | none => cs
    | some i =>
      let afterOpen := cs.drop (i + openT.length)
      match firstIndexOf afterOpen closeT with
      | none => cs
      | some j =>
        cs.take i ++ removeBlockFuel openT closeT fuel (afterOpen.drop (j + closeT.length))

/-- Three apostrophes (the Python `'''` delimiter). -/
def tripleApos : String := ⟨List.replicate 3 (Char.ofNat 39)⟩

/-- Embeds `removeMultilineComments` from `dist/parser.js`: strip triple-quoted
    blocks, C-style blocks, then blank out hash-delimited block lines
    (`#`, `# ---`, `#---` toggle the block). -/
def removeMultilineComments (text : String) : String :=
  let t1 : List Char := removeBlockFuel "\"\"\"".data "\"\"\"".data text.data.length text.data
  let t2 : List Char := removeBlockFuel tripleApos.data tripleApos.data t1.length t1
  let t3 : List Char := removeBlockFuel "/*".data "*/".data t2.length t2
  let ls := jsLines ⟨t3⟩
  let mapped := (ls.foldl (fun (st : Bool × List String) line =>
    let trimmed := jsTrim line
    if trimmed = "#" || trimmed = "# ---" || trimmed = "#---" then (!st.1, st.2 ++ [""])
    else if st.1 then (st.1, st.2 ++ [""])
    else (st.1, st.2 ++ [line])) (false, [])).2
  jsJoin "\n" mapped

/-- Index of the first `#` not preceded by `:` (the regex
    `/(?<!:)#.*$/g` removes from that character to the end of the line). -/
def hashIdxNotColon : Option Char → List Char → Option Nat
  | _, [] => none
  | prev, c :: rest =>
    if c = '#' && prev ≠ some ':' then some 0
    else (hashIdxNotColon (some c) rest).map (· + 1)

/-- Per-line comment removal in `parseTree`'s line mapper: terminated inline
    `/*…*/` blocks, `//…`, `#…` (URL-guarded), then trailing whitespace. -/
def stripInlineLine (l : String) : String :=
  let a : List Char := removeBlockFuel "/*".data "*/".data l.data.length l.data
  let b : List Char :=
    match firstIndexOf a "//".data with
    | some i => a.take i
    | none => a
  let c : List Char :=
    match hashIdxNotColon none b with
    | some i => b.take i
    | none => b
  jsTrimEnd ⟨c⟩

/-- Character class of guide-only lines: `/^[│├└|+`─\s]+$/`
    (whitespace handled separately). -/
def guideOnlyChars : List Char := ['│', '├', '└', '|', '+', Char.ofNat 96, '─']

/-- Line filter of `parseTree`: drop blank lines and lines made only of
    tree guides. -/
def keepLine (l : String) : Bool :=
  let trimmed := jsTrim l
  if trimmed = "" then false
  else !(trimmed.data.all (fun c => charMem c guideOnlyChars || isWsChar c))

/-- Embeds `detectIndentUnit`: once any kept line starts with whitespace, the unit
    is `tabIndentationSize` spaces (default 2); otherwise two spaces. -/
def detectIndentUnit (lines : List String) (cfg : ForgeCfg) : String :=
  if lines.any (fun l => (l.data.head?.map isWsChar).getD false) then
    ⟨List.replicate (if cfg.tabIndentationSize = 0 then 2
                     else cfg.tabIndentationSize) ' '⟩
  else "  "

/-- The ephemeral per-line parse result. -/
structure ParsedLine where
  depth : Nat
  name : String
  hint : Option String
deriving DecidableEq

/-- Index of the first `#`-run followed by a whitespace character (the match
    start of `/#+\s.*$/`). -/
def hashRunWsIdx : List Char → Option Nat
  | [] => none
  | c :: rest =>
    if c = '#' then
      let run := rest.takeWhile (fun d => d = '#')
      match (rest.drop run.length).head? with
      | some w => if isWsChar w then some 0 else (hashRunWsIdx rest).map (· + 1)
      | none => (hashRunWsIdx rest).map (· + 1)
    else (hashRunWsIdx rest).map (· + 1)

/-- Embedding of `trimmed.replace(/#+\s.*$/, m => " " + m)`: insert one space before the
    first matching `#`-run. -/
def keepHintSpace (cs : List Char) : List Char :=
  match hashRunWsIdx cs with
  | some i => cs.take i ++ [' '] ++ cs.drop i
  | none => cs

/-- Length consumed at the start of `rest` by the alternation
    `(?:\/\/|#|\/*)` (tried in order; `\/*` is *zero or more* slashes, so the
    alternation always matches). -/
def hintAltLen (cs : List Char) : Nat :=
  if "//".data.isPrefixOf cs then 2
  else if cs.head? = some '#' then 1
  else (cs.takeWhile (fun c => c = '/')).length

/-- The `hint` produced by `splitDepth`'s match
    `rest.match(/(?:\/\/|#|\/*)\s*(.*?)\s*(?:\*\/)?$/)`.

    Because the `\/*` alternative matches the empty string, the regex always
    matches at position 0 and, being `$`-anchored, `match[0]` is the whole of
    `rest`; hence `rest.indexOf(match[0]) = 0`, `beforeComment = ""` (falsy),
    and the extracted *name* is always `rest.trim()`.  Capture group 1 is the
    lazily-shortest middle: after the alternation and the greedy `\s*`, it
    ends at the earliest suffix of the form `\s*(\*\/)?` — i.e. the trailing
    whitespace run plus a final `*/` when the string ends with `*/`. -/
def hintOf (rest : String) : String :=
  let afterAlt := rest.data.drop (hintAltLen rest.data)
  let afterWs := afterAlt.dropWhile isWsChar
  let core :=
    if "*/".data.reverse.isPrefixOf afterWs.reverse then
      (afterWs.take (afterWs.length - 2)).reverse.dropWhile isWsChar |>.reverse
    else afterWs
  jsTrim ⟨core⟩

/-- Embeds `splitDepth` from `dist/parser.js` (the compiled parser current with the
    test suite): strip guide glyphs, re-protect `#` hints, measure leading
    whitespace (plus one for a leading ASCII guide), and derive the depth
    from the indent unit when guide detection is on, else from the count of
    `-`/`|` characters in the raw line. -/
def splitDepth (line : String) (unit : String) (cfg : ForgeCfg) : ParsedLine :=
  let style := cfg.treeStyle.getD ⟨'│', '─', '└', '├', unit⟩
  let styleChars := [style.vertical, style.branch, style.corner, style.horizontal]
  let trimmed1 : List Char :=
    if cfg.detectAsciiGuides then
      line.data.map (fun c => if charMem c styleChars then ' ' else c)
    else
      line.data.map (fun c =>
        if charMem c ['-', '|', '+', Char.ofNat 96] then ' ' else c)
  let trimmed2 := keepHintSpace trimmed1
  let treeStart :=
    if (line.data.head?.map (fun c => charMem c ['-', '+', '|', Char.ofNat 96])).getD false
    then 1 else 0
  let spacesN := (trimmed2.takeWhile isWsChar).length
  let rest : String := ⟨trimmed2.dropWhile isWsChar⟩
  let spaces := spacesN + treeStart
  let depth :=
    if cfg.detectAsciiGuides then spaces / unit.data.length
    else (line.data.filter (fun c => c = '-' || c = '|')).length
  { depth := depth, name := jsTrim rest, hint := some (hintOf rest) }

/-! ## Forest construction (`parseTree`'s stack loop) -/

/-- A stack entry: the node under construction together with its depth.
    In the source the node object is pushed into its parent's `children` at
    creation and mutated in place; here children accumulate in the frame and
    the finished node is attached when the frame is popped, which yields the
    same forest in the same order. -/
structure Frame where
  depth : Nat
  name : String
  path : String
  kind : String
  children : List TreeNode
  hint : Option String

/-- Close a frame into a finished node. -/
def closeFrame (f : Frame) : TreeNode :=
  .mk f.name f.path f.kind f.children f.hint

/-- Embeds `while (stack.length && stack[stack.length-1].depth >= depth) stack.pop()`:
    pop frames with depth `≥ d`, attaching each closed node to the next frame
    below (or to the roots when the stack empties).  `fuel` bounds the loop
    by the stack length. -/
def popGEFuel (d : Nat) : Nat → List Frame → List TreeNode →
    List Frame × List TreeNode
  | 0, stack, roots => (stack, roots)
  | _ + 1, [], roots => ([], roots)
  | _ + 1, [f], roots =>
    if f.depth ≥ d then ([], roots ++ [closeFrame f]) else ([f], roots)
  | fuel + 1, f :: g :: tail, roots =>
    if f.depth ≥ d then
      popGEFuel d fuel ({ g with children := g.children ++ [closeFrame f] } :: tail) roots
    else (f :: g :: tail, roots)

/-- The build state: stack (head = top) and completed roots in order. -/
structure BuildSt where
  stack : List Frame
  roots : List TreeNode

/-- Embeds `name.replace(/\/$/, "")`: strip one explicit trailing slash. -/
def cleanName (nm : String) : String :=
  if strEndsWith nm "/" then (⟨nm.data.dropLast⟩ : String) else nm

/-- The two-step kind heuristic of the parser loop:
    `kind = endsWith "/" || includes "." ? "file" : "dir"` corrected to
    `"dir"` when it came out `"file"` but the cleaned name has no dot. -/
def kindOf (nm : String) : String :=
  let kind0 := if strEndsWith nm "/" || strHasChar nm '.' then "file" else "dir"
  if kind0 = "file" && !strHasChar (cleanName nm) '.' then "dir" else kind0

/-- The node pushed for one line, given the already-popped stack: its path is
    the bare cleaned name for a root, else the stacked names plus the cleaned
    name joined with `/` (`pathParts`). -/
def newFrame (pl : ParsedLine) (stack1 : List Frame) : Frame :=
  { depth := pl.depth
    name := cleanName pl.name
    path := if stack1.isEmpty then cleanName pl.name
            else jsJoin "/" ((stack1.reverse.map Frame.name) ++ [cleanName pl.name])
    kind := kindOf pl.name
    children := []
    hint := pl.hint }

/-- One iteration of the `for (const raw of lines)` body: pop closed scopes,
    then push the new frame. -/
def buildStep (st : BuildSt) (pl : ParsedLine) : BuildSt :=
  let (stack1, roots1) := popGEFuel pl.depth st.stack.length st.stack st.roots
  { stack := newFrame pl stack1 :: stack1, roots := roots1 }

/-- Run the stack loop over all parsed lines and flush the remaining stack
    (every frame still open at the end is closed into its parent/roots). -/
def buildForest (pls : List ParsedLine) : List TreeNode :=
  let fin := pls.foldl buildStep { stack := [], roots := [] }
  (popGEFuel 0 fin.stack.length fin.stack fin.roots).2

/-! ## `validateComments` and `validateTree` (`src/validator.ts`) -/

/-- A `ValidationError` of `validator.ts`. -/
structure VError where
  typ : String
  message : String
  line : Option Nat
  context : Option String
deriving DecidableEq

/-- State of the comment scanner: the three block flags, the recorded block
    start line, and the accumulated errors. -/
structure VCState where
  inPy : Bool
  inC : Bool
  inHash : Bool
  startLine : Nat
  errors : List VError
deriving DecidableEq

/-- Initial comment-scanner state. -/
def vcInit : VCState := ⟨false, false, false, 0, []⟩

/-- Python-style block delimiter test (`"""` or `'''`). -/
def startsPyDelim (trimmed : String) : Bool :=
  strStartsWith trimmed "\"\"\"" || strStartsWith trimmed tripleApos

/-- Hash block toggle test (`#`, `# ---`, `#---`). -/
def isHashToggle (trimmed : String) : Bool :=
  trimmed = "#" || trimmed = "# ---" || trimmed = "#---"

/-- Warning pushed before a block delimiter not preceded by a blank line. -/
def warnPre (all : List String) (l : String) (idx : Nat) : List VError :=
  if idx > 0 && jsTrim (all.getD (idx - 1) "") ≠ "" then
    [⟨"warning", "Multiline comment block should be preceded by an empty line",
      some (idx + 1), some l⟩]
  else []

/-- Warning pushed after a block delimiter not followed by a blank line. -/
def warnPost (all : List String) (total : Nat) (l : String) (idx : Nat) : List VError :=
  if idx < total - 1 && jsTrim (all.getD (idx + 1) "") ≠ "" then
    [⟨"warning", "Multiline comment block should be followed by an empty line",
      some (idx + 1), some l⟩]
  else []

/-- Python-style block toggle (triple-quote delimiters). -/
def vcPy (all : List String) (total : Nat) (l : String) (idx : Nat)
    (st : VCState) : VCState :=
  if startsPyDelim (jsTrim l) then
    if !st.inPy then
      { st with inPy := true, startLine := idx, errors := st.errors ++ warnPre all l idx }
    else
      { st with inPy := false, errors := st.errors ++ warnPost all total l idx }
  else st

/-- C-style block opener (trimmed line starting with the block opener). -/
def vcCOpen (all : List String) (l : String) (idx : Nat) (st : VCState) : VCState :=
  if strStartsWith (jsTrim l) "/*" then
    if !st.inC then
      { st with inC := true, startLine := idx, errors := st.errors ++ warnPre all l idx }
    else st
  else st

/-- C-style block closer (trimmed line ending with the block closer). -/
def vcCClose (all : List String) (total : Nat) (l : String) (idx : Nat)
    (st : VCState) : VCState :=
  if strEndsWith (jsTrim l) "*/" then
    if st.inC then
      { st with inC := false, errors := st.errors ++ warnPost all total l idx }
    else st
  else st

/-- Hash block toggle (a line that is exactly a hash toggle). -/
def vcHash (all : List String) (total : Nat) (l : String) (idx : Nat)
    (st : VCState) : VCState :=
  if isHashToggle (jsTrim l) then
    if !st.inHash then
      { st with inHash := true, startLine := idx, errors := st.errors ++ warnPre all l idx }
    else
      { st with inHash := false, errors := st.errors ++ warnPost all total l idx }
  else st

/-- The unclosed-block reports pushed while processing the last line. -/
def vcEof (all : List String) (total : Nat) (idx : Nat) (st : VCState) : VCState :=
  if idx = total - 1 then
    { st with errors := st.errors
        ++ (if st.inPy then
              [⟨"error", "Unclosed Python-style comment block",
                some (st.startLine + 1), some (all.getD st.startLine "")⟩]
            else [])
        ++ (if st.inC then
              [⟨"error", "Unclosed C-style comment block",
                some (st.startLine + 1), some (all.getD st.startLine "")⟩]
            else [])
        ++ (if st.inHash then
              [⟨"error", "Unclosed hash-style comment block",
                some (st.startLine + 1), some (all.getD st.startLine "")⟩]
            else []) }
  else st

/-- The body of the `lines.forEach` in `validateComments`, for line `l` at
    index `idx` (neighbour lines are read from `all`; `total` is the line
    count): the three block toggles in source order, then the EOF check. -/
def vcStep (all : List String) (total : Nat) (l : String) (idx : Nat)
    (st : VCState) : VCState :=
  vcEof all total idx
    (vcHash all total l idx
      (vcCClose all total l idx
        (vcCOpen all l idx
          (vcPy all total l idx st))))

/-- Fold `vcStep` over the remaining lines, tracking the index. -/
def vcAux (all : List String) (total : Nat) : List String → Nat → VCState → VCState
  | [], _, st => st
  | l :: rest, idx, st => vcAux all total rest (idx + 1) (vcStep all total l idx st)

/-- Embeds `validateComments` of `validator.ts`. -/
def validateComments (text : String) : List VError :=
  let ls := jsLines text
  (vcAux ls ls.length ls 0 vcInit).errors

/-- Split at every character of a class (empty pieces kept). -/
def splitClassList (isSep : Char → Bool) : List Char → List (List Char)
  | [] => [[]]
  | c :: rest =>
    let r := splitClassList isSep rest
    if isSep c then [] :: r
    else match r with
      | [] => [[c]]
      | p :: ps => (c :: p) :: ps

/-- The maximal runs of characters *not* in the separator class:
    JS `split(/[class]+/).filter(Boolean)` keeps exactly these runs. -/
def classRuns (isSep : Char → Bool) (cs : List Char) : List String :=
  ((splitClassList isSep cs).filter (fun p => p ≠ [])).map (fun p => (⟨p⟩ : String))

/-- Separator class `[-│├└|+`\s]` of the node-name extraction. -/
def nameSepChar (c : Char) : Bool :=
  charMem c ['-', '│', '├', '└', '|', '+', Char.ofNat 96] || isWsChar c

/-- Per-line node-name checks of `validateTree` (the second `forEach`). -/
def nameCheckLine (idx : Nat) (line : String) : List VError :=
  -- Skip lines that are just tree guides
  if (jsTrim line).data.all (fun c => c = '│' || c = '|') then []
  else
    -- Remove comments first (no URL guard here, unlike the parser)
    let a : List Char := removeBlockFuel "/*".data "*/".data line.data.length line.data
    let b : List Char := match firstIndexOf a "//".data with
      | some i => a.take i
      | none => a
    let c : List Char := match firstIndexOf b ['#'] with
      | some i => b.take i
      | none => b
    let lineNoC := jsTrim ⟨c⟩
    if lineNoC = "" then []
    else
      let parts := classRuns nameSepChar lineNoC.data
      -- `parts[parts.length-1]` is `undefined` for an empty array; the
      -- `if (!name)` check treats that and `""` alike, and the remaining
      -- checks are vacuous on `""`.
      let name := parts.getLast?.getD ""
      (if name = "" then
        [⟨"error", "Empty node name.", some (idx + 1), some line⟩] else [])
      ++ (if name.data.any (fun ch =>
            charMem ch ['<', '>', ':', '"', '|', '?', '*']) then
        [⟨"error", "Node name contains invalid characters (< > : \" | ? *).",
          some (idx + 1), some line⟩] else [])
      ++ (if strStartsWith name "/"
            || (match name.data with
                | c0 :: c1 :: c2 :: _ => c0.isAlpha && c1 = ':' && c2 = '\\'
                | _ => false) then
        [⟨"error", "Node names cannot be absolute paths.", some (idx + 1), some line⟩]
        else [])

/-- Depth of one (already trimmed) line in `validateTree`'s structure check:
    `(spaces[0].length / 2) || treeChars[0].length`.  On the trimmed lines the
    leading-whitespace length is always `0` (so the JS float division never
    produces a fractional truthy value) and the tree-character count is
    selected. -/
def vDepthOf (line : String) : Nat :=
  let w := (line.data.takeWhile isWsChar).length
  let t := (line.data.takeWhile (fun c =>
    charMem c ['-', '│', '├', '└', '|', '+', Char.ofNat 96])).length
  if w = 0 then t else w / 2

/-- The depth-jump check of `validateTree`: one error per line whose computed
    depth exceeds the previous line's depth plus one. -/
def depthCheck (lines : List String) : List VError :=
  (lines.enum.foldl
    (fun (st : Nat × List VError) p =>
      let depth := vDepthOf p.2
      let errs := if depth > st.1 + 1 then
          st.2 ++ [⟨"error", "Invalid indentation. Depth can only increase by 1.",
                    some (p.1 + 1), some p.2⟩]
        else st.2
      (depth, errs))
    (0, [])).2

/-- State of the duplicate-path walk: first-occurrence names by path, and
    accumulated errors. -/
structure DupSt where
  seen : List (String × String)
  errors : List VError

mutual
/-- Depth-first duplicate-path detection over one node (the
    `checkDuplicates` closure of `validateTree`). -/
def dupWalk (st : DupSt) : TreeNode → DupSt
  | .mk name path _ children _ =>
    let st' :=
      match st.seen.find? (fun p => p.1 = path) with
      | some q =>
        { st with errors := st.errors ++
            [⟨"error", "Path \"" ++ path ++ "\" is duplicated. First occurrence: "
              ++ q.2 ++ ", Current: " ++ name, none, none⟩] }
      | none => { st with seen := st.seen ++ [(path, name)] }
    dupWalkList st' children

/-- Duplicate-path walk over a child list. -/
def dupWalkList (st : DupSt) : List TreeNode → DupSt
  | [] => st
  | c :: cs => dupWalkList (dupWalk st c) cs
end

/-- Embeds `validateTree(text, roots)` as invoked in this repository (by
    `dist/parser.js` and by the test suite): the optional `cfg` argument is
    never passed, so the `cfg?.pathValidation` branch is the plain
    duplicate-path check. -/
def validateTree (text : String) (roots : List TreeNode) : List VError :=
  let commentErrs := validateComments text
  let lines := ((jsLines text).map jsTrim).filter (fun l => l ≠ "")
  -- Check for empty tree (early return)
  if lines.isEmpty then
    commentErrs ++
      [⟨"error", "Tree is empty. Please provide a valid tree structure.", none, none⟩]
  else
    let l0 := lines.headD ""
    let rootErrs : List VError :=
      if (l0.data.head?.map (fun c =>
            charMem c [' ', '│', '├', '└', '-', '|'])).getD false then
        [⟨"error", "First line must be a root node without indentation.",
          some 1, some l0⟩]
      else []
    let nameErrs := lines.enum.flatMap (fun p => nameCheckLine p.1 p.2)
    let depthErrs := depthCheck lines
    let rootsEmptyErrs : List VError :=
      if roots.isEmpty then
        [⟨"error", "No root nodes found after parsing.", none, none⟩]
      else []
    let dupErrs := (dupWalkList ⟨[], []⟩ roots).errors
    let multiErrs : List VError :=
      if roots.length > 1 then
        [⟨"warning", "Multiple root nodes found. This might lead to unexpected behavior.",
          none, none⟩]
      else []
    commentErrs ++ rootErrs ++ nameErrs ++ depthErrs ++ rootsEmptyErrs
      ++ dupErrs ++ multiErrs

mutual
/-- The `updatePaths` rebase of `parseTree`: join every node's path under
    `targetDir`. -/
def rebaseNode (t : String) : TreeNode → TreeNode
  | .mk name path kind children hint =>
    .mk name (pathJoin t path) kind (rebaseList t children) hint

/-- Rebase over a child list. -/
def rebaseList (t : String) : List TreeNode → List TreeNode
  | [] => []
  | c :: cs => rebaseNode t c :: rebaseList t cs
end

/-- Render one critical error the way `parseTree`'s thrown message does. -/
def fmtVError (e : VError) : String :=
  match e.line with
  | some n => "Line " ++ toString n ++ ": " ++ e.message ++
      (match e.context with
       | some c => "\n  " ++ c
       | none => "")
  | none => e.message

/-- Embeds `parseTree` of `dist/parser.js`, split into its pipeline stages: strip
    comments, split and filter lines, classify each line. -/
def parseLines (text : String) (cfg : ForgeCfg) : List ParsedLine :=
  let lines := ((jsLines (removeMultilineComments text)).map stripInlineLine).filter keepLine
  let unit := if cfg.detectAsciiGuides then detectIndentUnit lines cfg else "  "
  lines.map (fun l => splitDepth l unit cfg)

/-- The critical (type `error`) validation results for the built forest. -/
def parseCritical (text : String) (cfg : ForgeCfg) : List VError :=
  (validateTree (removeMultilineComments text)
    (buildForest (parseLines text cfg))).filter (fun e => e.typ = "error")

/-- Main `parseTree`: on critical errors the source throws; the thrown
    message becomes the `.error` value.  On success the forest is rebased
    under `targetDir` when `pathNormalization?.base === "root"`. -/
def parseTree (text : String) (cfg : ForgeCfg) : Except String (List TreeNode) :=
  let roots := buildForest (parseLines text cfg)
  if (parseCritical text cfg).isEmpty then
    .ok (if cfg.pathNormalizationBase = some "root" then rebaseList cfg.targetDir roots
         else roots)
  else
    .error ("Invalid tree structure:\n"
      ++ jsJoin "\n" ((parseCritical text cfg).map fmtVError))

/-! ## Forest invariants -/

/-- Path well-formedness below a node: every child's path is the node's path
    joined with the child's name by `/`, recursively. -/
inductive ChildPaths : TreeNode → Prop where
  | mk {name path kind : String} {children : List TreeNode} {hint : Option String} :
      (∀ c ∈ children, c.path = path ++ "/" ++ c.name) →
      (∀ c ∈ children, ChildPaths c) →
      ChildPaths (.mk name path kind children hint)

/-- Kind well-formedness: a node's kind is `"file"` exactly when its stored
    (slash-stripped) name contains a dot, recursively. -/
inductive KindsOk : TreeNode → Prop where
  | mk {name path kind : String} {children : List TreeNode} {hint : Option String} :
      kind = (if strHasChar name '.' then "file" else "dir") →
      (∀ c ∈ children, KindsOk c) →
      KindsOk (.mk name path kind children hint)

/-- Combined invariant of every node produced by the builder. -/
inductive Built : TreeNode → Prop where
  | mk {name path kind : String} {children : List TreeNode} {hint : Option String} :
      kind = (if strHasChar name '.' then "file" else "dir") →
      (∀ c ∈ children, c.path = path ++ "/" ++ c.name) →
      (∀ c ∈ children, Built c) →
      Built (.mk name path kind children hint)

/-- A built node satisfies the path invariant. -/
theorem built_childPaths (n : TreeNode) (h : Built n) : ChildPaths n := by
  induction h with
  | mk hk hp hb ih => exact .mk hp ih

/-- A built node satisfies the kind invariant. -/
theorem built_kindsOk (n : TreeNode) (h : Built n) : KindsOk n := by
  induction h with
  | mk hk hp hb ih => exact .mk hk ih

/-- Rebasing changes only paths, so the kind invariant survives it. -/
theorem kindsOk_rebase (t : String) (n : TreeNode) (h : KindsOk n) :
    KindsOk (rebaseNode t n) := by
  induction h with
  | mk hk hc ih =>
    rw [rebaseNode]
    refine .mk hk ?_
    intro c' hc'
    have hmap : ∀ (l : List TreeNode), rebaseList t l = l.map (rebaseNode t) := by
      intro l
      induction l with
      | nil => rfl
      | cons x xs ihl => rw [rebaseList, ihl, List.map_cons]
    rw [hmap] at hc'
    obtain ⟨c, hcm, rfl⟩ := List.mem_map.mp hc'
    exact ih c hcm

/-- Invariant carried by the builder stack: every frame's path is the join of
    the stacked names up to it, its kind is determined by its name, and its
    accumulated children are well-formed built nodes hanging off its path. -/
def stackInv : List Frame → Prop
  | [] => True
  | f :: rest =>
      f.path = jsJoin "/" (((f :: rest).reverse).map Frame.name) ∧
      f.kind = (if strHasChar f.name '.' then "file" else "dir") ∧
      (∀ c ∈ f.children, c.path = f.path ++ "/" ++ c.name) ∧
      (∀ c ∈ f.children, Built c) ∧
      stackInv rest

/-- Invariant of the completed roots: each root's path is its own name and
    the subtree is built. -/
def rootsInv (roots : List TreeNode) : Prop :=
  ∀ r ∈ roots, r.path = r.name ∧ Built r

theorem jsJoin_snoc (sep y : String) (l : List String) (h : l ≠ []) :
    jsJoin sep (l ++ [y]) = jsJoin sep l ++ sep ++ y := by
  match l with
  | x :: xs => simp [jsJoin, List.foldl_append]

theorem jsJoin_singleton (sep x : String) : jsJoin sep [x] = x := rfl

@[simp] theorem TreeNode.name_mk (n p k : String) (cs : List TreeNode)
    (h : Option String) : (TreeNode.mk n p k cs h).name = n := rfl

@[simp] theorem TreeNode.path_mk (n p k : String) (cs : List TreeNode)
    (h : Option String) : (TreeNode.mk n p k cs h).path = p := rfl

@[simp] theorem TreeNode.kind_mk (n p k : String) (cs : List TreeNode)
    (h : Option String) : (TreeNode.mk n p k cs h).kind = k := rfl

/-- A frame closed from an invariant-satisfying stack top is a built node. -/
theorem closeFrame_built (f : Frame) (rest : List Frame)
    (h : stackInv (f :: rest)) : Built (closeFrame f) := by
  obtain ⟨_, hk, hp, hb, _⟩ := h
  exact .mk hk hp hb

/-- The path of the top frame of a two-deep stack is its parent's path
    joined with its name. -/
theorem top_path_eq (f g : Frame) (tail : List Frame)
    (h : stackInv (f :: g :: tail)) :
    f.path = g.path ++ "/" ++ f.name := by
  obtain ⟨hf, -, -, -, hg, -⟩ := h
  have hrev : (f :: g :: tail).reverse = (g :: tail).reverse ++ [f] := by
    simp
  rw [hrev, List.map_append] at hf
  simp only [List.map_cons, List.map_nil] at hf
  rw [hf, jsJoin_snoc _ _ _ (by simp), ← hg]

/-- Lemma: `popGEFuel` preserves the stack and roots invariants. -/
theorem popGE_inv (d : Nat) : ∀ (fuel : Nat) (stack : List Frame)
    (roots : List TreeNode), stackInv stack → rootsInv roots →
    stackInv (popGEFuel d fuel stack roots).1 ∧
      rootsInv (popGEFuel d fuel stack roots).2 := by
  intro fuel
  induction fuel with
  | zero => intro stack roots hs hr; exact ⟨hs, hr⟩
  | succ n ih =>
    intro stack roots hs hr
    match stack with
    | [] => exact ⟨trivial, hr⟩
    | [f] =>
      simp only [popGEFuel]
      by_cases hd : f.depth ≥ d
      · simp only [hd, if_pos]
        refine ⟨trivial, ?_⟩
        intro r hrmem
        rcases List.mem_append.mp hrmem with hold | hnew
        · exact hr r hold
        · have hreq : r = closeFrame f := by simpa using hnew
          subst hreq
          obtain ⟨hf, hk, hp, hb, -⟩ := hs
          constructor
          · rw [closeFrame]
            simpa [jsJoin_singleton] using hf
          · exact closeFrame_built f [] ⟨hf, hk, hp, hb, trivial⟩
      · simp only [hd, if_neg, not_false_iff]
        exact ⟨hs, hr⟩
    | f :: g :: tail =>
      simp only [popGEFuel]
      obtain ⟨hf, hk, hp, hb, hg, hgk, hgp, hgb, htail⟩ := hs
      by_cases hd : f.depth ≥ d
      · simp only [hd, if_pos]
        apply ih
        · refine ⟨?_, hgk, ?_, ?_, htail⟩
          · simpa using hg
          · intro c hc
            rcases List.mem_append.mp hc with hold | hnew
            · exact hgp c hold
            · have hceq : c = closeFrame f := by simpa using hnew
              subst hceq
              rw [closeFrame]
              simp only [TreeNode.path_mk, TreeNode.name_mk]
              exact top_path_eq f g tail ⟨hf, hk, hp, hb, hg, hgk, hgp, hgb, htail⟩
          · intro c hc
            rcases List.mem_append.mp hc with hold | hnew
            · exact hgb c hold
            · have hceq : c = closeFrame f := by simpa using hnew
              subst hceq
              exact closeFrame_built f (g :: tail) ⟨hf, hk, hp, hb, hg, hgk, hgp, hgb, htail⟩
        · exact hr
      · simp only [hd, if_neg, not_false_iff]
        exact ⟨⟨hf, hk, hp, hb, hg, hgk, hgp, hgb, htail⟩, hr⟩

/-- Lemma: `rebaseList` is the elementwise rebase. -/
theorem rebaseList_map (t : String) (l : List TreeNode) :
    rebaseList t l = l.map (rebaseNode t) := by
  induction l with
  | nil => rfl
  | cons x xs ihl => rw [rebaseList, ihl, List.map_cons]

/-- The final kind equals the dot test on the stored (cleaned) name. -/
theorem kindOf_eq (nm : String) :
    kindOf nm = (if strHasChar (cleanName nm) '.' then "file" else "dir") := by
  unfold kindOf cleanName
  by_cases h1 : strEndsWith nm "/"
  · by_cases h2 : strHasChar (⟨nm.data.dropLast⟩ : String) '.' <;> simp_all
  · by_cases h3 : strHasChar nm '.' <;> simp_all

/-- The pushed frame's path satisfies the stacked-names equation. -/
theorem newFrame_path (pl : ParsedLine) (stack1 : List Frame) :
    (newFrame pl stack1).path =
      jsJoin "/" (((newFrame pl stack1 :: stack1).reverse).map Frame.name) := by
  cases stack1 with
  | nil => simp [newFrame, jsJoin_singleton]
  | cons g tail => simp [newFrame]

/-- Lemma: `buildStep` preserves the invariants. -/
theorem buildStep_inv (st : BuildSt) (pl : ParsedLine)
    (hs : stackInv st.stack) (hr : rootsInv st.roots) :
    stackInv (buildStep st pl).stack ∧ rootsInv (buildStep st pl).roots := by
  obtain ⟨hps, hpr⟩ := popGE_inv pl.depth st.stack.length st.stack st.roots hs hr
  refine ⟨?_, hpr⟩
  show stackInv (newFrame pl (popGEFuel pl.depth st.stack.length st.stack st.roots).1
    :: (popGEFuel pl.depth st.stack.length st.stack st.roots).1)
  refine ⟨newFrame_path pl _, ?_, ?_, ?_, hps⟩
  · show kindOf pl.name = _
    rw [kindOf_eq]
    rfl
  · intro c hc
    simp [newFrame] at hc
  · intro c hc
    simp [newFrame] at hc

/-- The invariants hold after folding the whole line list. -/
theorem buildFold_inv (pls : List ParsedLine) : ∀ (st : BuildSt),
    stackInv st.stack → rootsInv st.roots →
    stackInv ((pls.foldl buildStep st).stack) ∧
      rootsInv ((pls.foldl buildStep st).roots) := by
  induction pls with
  | nil => intro st hs hr; exact ⟨hs, hr⟩
  | cons p ps ih =>
    intro st hs hr
    rw [List.foldl_cons]
    obtain ⟨h1, h2⟩ := buildStep_inv st p hs hr
    exact ih _ h1 h2

/-- Every root of a built forest has `path = name` and a built subtree. -/
theorem buildForest_inv (pls : List ParsedLine) : rootsInv (buildForest pls) := by
  obtain ⟨h1, h2⟩ := buildFold_inv pls ⟨[], []⟩ trivial (by intro r hr; simp at hr)
  exact (popGE_inv 0 (pls.foldl buildStep ⟨[], []⟩).stack.length
    (pls.foldl buildStep ⟨[], []⟩).stack (pls.foldl buildStep ⟨[], []⟩).roots h1 h2).2

/-- What a successful parse returns: the built forest, rebased when
    configured. -/
theorem parseTree_ok_eq (text : String) (cfg : ForgeCfg) (roots : List TreeNode)
    (hok : parseTree text cfg = .ok roots) :
    roots = (if cfg.pathNormalizationBase = some "root"
             then rebaseList cfg.targetDir (buildForest (parseLines text cfg))
             else buildForest (parseLines text cfg)) := by
  by_cases hc : (parseCritical text cfg).isEmpty
  · simp only [parseTree, hc, if_true, Except.ok.injEq] at hok
    exact hok.symm
  · simp only [parseTree, hc, if_false] at hok
    exact absurd hok (by simp)

/-! ## Claims C5 and C6 -/

/-- C5, counterexample: the claim says a childless line written `v1.2/`
    parses with kind Directory; in the code the explicit `/` suffix routes
    through the `"file"` branch and the dot in `v1.2` keeps it there, so the
    childless, slash-suffixed node parses with kind `"file"` ≠ `"dir"`. -/
theorem c5_slash_dot_kind_counterexample :
    parseTree "v1.2/" ⟨"", true, 2, none, none⟩ =
      .ok [TreeNode.mk "v1.2" "v1.2" "file" [] (some "v1.2/")] ∧
    (TreeNode.mk "v1.2" "v1.2" "file" [] (some "v1.2/")).kind ≠ "dir" ∧
    (TreeNode.mk "v1.2" "v1.2" "file" [] (some "v1.2/")).children = [] :=
  ⟨rfl, by decide, rfl⟩

/-- C5, amended: for every forest returned by `parseTree`, a node's kind is
    `"dir"` if and only if its stored name (trailing slash stripped) contains
    no dot — children and the explicit `/` suffix play no role. -/
theorem c5_kind_iff_dot_in_name (text : String) (cfg : ForgeCfg)
    (roots : List TreeNode) (hok : parseTree text cfg = .ok roots) :
    ∀ r ∈ roots, KindsOk r := by
  have heq := parseTree_ok_eq text cfg roots hok
  by_cases hb : cfg.pathNormalizationBase = some "root"
  · rw [heq, if_pos hb, rebaseList_map]
    intro r hr
    obtain ⟨c, hcm, rfl⟩ := List.mem_map.mp hr
    exact kindsOk_rebase _ c (built_kindsOk c (buildForest_inv _ c hcm).2)
  · rw [heq, if_neg hb]
    intro r hr
    exact built_kindsOk r (buildForest_inv _ r hr).2

set_option maxHeartbeats 2000000 in
/-- C5, witness: the kind invariant instantiated on a concrete parse. -/
theorem c5_kind_iff_dot_in_name_witness :
    parseTree "root/\n  file.txt" ⟨"", true, 2, none, none⟩ =
      .ok [TreeNode.mk "root" "root" "dir"
        [TreeNode.mk "file.txt" "root/file.txt" "file" [] (some "file.txt")]
        (some "root/")] ∧
    KindsOk (TreeNode.mk "root" "root" "dir"
        [TreeNode.mk "file.txt" "root/file.txt" "file" [] (some "file.txt")]
        (some "root/")) := by
  have h : parseTree "root/\n  file.txt" ⟨"", true, 2, none, none⟩ =
      .ok [TreeNode.mk "root" "root" "dir"
        [TreeNode.mk "file.txt" "root/file.txt" "file" [] (some "file.txt")]
        (some "root/")] := by rfl
  exact ⟨h, c5_kind_iff_dot_in_name _ _ _ h _ (List.mem_singleton.mpr rfl)⟩

/-- C6, counterexample: with `pathNormalization.base = "root"` and a
    non-empty `targetDir`, the returned root's path is
    `path.join(targetDir, name)`, not its name, contradicting the claim for
    that configuration. -/
theorem c6_root_path_counterexample :
    parseTree "root" ⟨"out", true, 2, none, some "root"⟩ =
      .ok [TreeNode.mk "root" "out/root" "dir" [] (some "root")] ∧
    (TreeNode.mk "root" "out/root" "dir" [] (some "root")).path ≠
      (TreeNode.mk "root" "out/root" "dir" [] (some "root")).name ∧
    "out/root" = pathJoin "out" "root" :=
  ⟨rfl, by decide, rfl⟩

/-- C6, amended: whenever the rebase is off
    (`pathNormalization?.base ≠ "root"`), every returned root's path equals
    its name and every child's path is the parent's path joined with the
    child's name using `/`. -/
theorem c6_path_join_invariant (text : String) (cfg : ForgeCfg)
    (roots : List TreeNode) (hb : cfg.pathNormalizationBase ≠ some "root")
    (hok : parseTree text cfg = .ok roots) :
    ∀ r ∈ roots, r.path = r.name ∧ ChildPaths r := by
  have heq := parseTree_ok_eq text cfg roots hok
  rw [heq, if_neg hb]
  intro r hr
  obtain ⟨h1, h2⟩ := buildForest_inv _ r hr
  exact ⟨h1, built_childPaths r h2⟩

set_option maxHeartbeats 2000000 in
/-- C6, witness: the path invariant instantiated on the repository's own
    "respects target directory" test input. -/
theorem c6_path_join_invariant_witness :
    parseTree "root/\n  file.txt" ⟨"/custom/target", true, 2, none, none⟩ =
      .ok [TreeNode.mk "root" "root" "dir"
        [TreeNode.mk "file.txt" "root/file.txt" "file" [] (some "file.txt")]
        (some "root/")] ∧
    ((TreeNode.mk "root" "root" "dir"
        [TreeNode.mk "file.txt" "root/file.txt" "file" [] (some "file.txt")]
        (some "root/")).path =
      (TreeNode.mk "root" "root" "dir"
        [TreeNode.mk "file.txt" "root/file.txt" "file" [] (some "file.txt")]
        (some "root/")).name ∧
     ChildPaths (TreeNode.mk "root" "root" "dir"
        [TreeNode.mk "file.txt" "root/file.txt" "file" [] (some "file.txt")]
        (some "root/"))) := by
  have h : parseTree "root/\n  file.txt" ⟨"/custom/target", true, 2, none, none⟩ =
      .ok [TreeNode.mk "root" "root" "dir"
        [TreeNode.mk "file.txt" "root/file.txt" "file" [] (some "file.txt")]
        (some "root/")] := by rfl
  exact ⟨h, c6_path_join_invariant _ _ _ (by decide) h _ (List.mem_singleton.mpr rfl)⟩

/-! ## Claims C1, C2, C3 -/

/-- The strategy bundle of the duplicate-resolution tests:
    `onDuplicatePath: "numbered"` with the default pattern, counter start and
    padding (the explicit test values coincide with the defaults). -/
def numberedStrategy : Strategy := { defaultStrategy with onDuplicatePath := "numbered" }

/-- Digest stub for configurations that never hash. -/
def noDigest : String → String := fun _ => ""

/-- C1 (divergence witness): three `validatePath` calls on the same path
    under the numbered strategy.  The second and the third duplicate both
    receive the *same* suggestion `test/file-001.txt`, because `validatePath`
    records only the original path in `seenPaths` and never the suggestion;
    the claim (and the repository's own "should increment counter for
    multiple duplicates" test, which expects `test/file-002.txt`) requires
    the third resolution to differ from the second. -/
theorem c1_numbered_resolution_repeats :
    (let r1 := validatePath defaultRules numberedStrategy noDigest "" "test/file.txt" emptySession
     let r2 := validatePath defaultRules numberedStrategy noDigest "" "test/file.txt" r1.2
     let r3 := validatePath defaultRules numberedStrategy noDigest "" "test/file.txt" r2.2
     r1.1 = [] ∧
     r2.1.map (fun e => (e.code, e.resolvedPath)) =
       [("duplicatePath", "test/file-001.txt"), ("duplicateName", "test/file.txt")] ∧
     r3.1.map (fun e => (e.code, e.resolvedPath)) =
       [("duplicatePath", "test/file-001.txt"), ("duplicateName", "test/file.txt")] ∧
     ("test/file-001.txt" : String) ≠ "test/file-002.txt") := by decide

/-- C2 (confirmed): validating `root/folder` twice under default rules and
    `onDuplicatePath: "numbered"` yields no violation on the first call, and
    on the second call a `duplicatePath` violation whose
    `details.resolvedPath` is `root/folder-001`. -/
theorem c2_numbered_duplicate_resolved_path :
    (let r1 := validatePath defaultRules numberedStrategy noDigest "" "root/folder" emptySession
     let r2 := validatePath defaultRules numberedStrategy noDigest "" "root/folder" r1.2
     r1.1 = [] ∧
     r2.1.map (fun e => (e.code, e.resolvedPath)) =
       [("duplicatePath", "root/folder-001"), ("duplicateName", "root/folder")]) := by decide

/-- The repository's own "validates indentation consistency" test input. -/
def c3Text : String := "root/\n  level1/\n      level3/\n    back-to-level2/"

/-- The base configuration of the parser tests. -/
def c3Cfg : ForgeCfg := ⟨"/tmp/any", true, 2, none, none⟩

/-- C3 (divergence witness): the parser computes depths `[0, 1, 3, 2]` for
    the test input — line 3 jumps from depth 1 to depth 3 — yet
    `validateTree` reports no "Invalid indentation" error at all, because its
    depth check measures leading whitespace on lines it has already trimmed
    (the repository's own test expects the error to be found). -/
theorem c3_depth_jump_not_reported :
    (parseLines c3Text c3Cfg).map ParsedLine.depth = [0, 1, 3, 2] ∧
    (3 : Nat) > 1 + 1 ∧
    (validateTree c3Text []).filter
      (fun e => e.message = "Invalid indentation. Depth can only increase by 1.") = [] := by
  decide

/-! ## Claim C9: strategies never touch the session -/

theorem renameNumberedLoop_session (pat dir ext : String) (pad : Nat) (orig : String) :
    ∀ (fuel i : Nat) (s : Session),
    (renameNumberedLoop pat dir ext pad orig i fuel s).2 = s := by
  intro fuel
  induction fuel with
  | zero => intro i s; rfl
  | succ n ih =>
    intro i s
    rw [renameNumberedLoop]
    split
    · exact ih (i + 1) s
    · rfl

theorem renameNumbered_session (strat : Strategy) (p ext : String) (s : Session) :
    (renameNumbered strat p ext s).2 = s :=
  renameNumberedLoop_session _ _ _ _ _ _ _ s

theorem truncatePath_session (p : String) (n : Nat) (ext : String) (s : Session) :
    (truncatePath p n ext s).2 = s := by
  unfold truncatePath
  split
  · rfl
  · dsimp only
    split <;> rfl

theorem shortenPath_session (p : String) (n : Nat) (ext : String) (s : Session) :
    (shortenPath p n ext s).2 = s := by
  unfold shortenPath
  split
  · rfl
  · dsimp only
    split
    · exact truncatePath_session _ _ _ s
    · rfl

set_option maxHeartbeats 2000000 in
theorem resolveConflict_session (rules : Rules) (strat : Strategy)
    (digest : String → String) (now p code : String) (details : Details)
    (s : Session) : (resolveConflict rules strat digest now p code details s).2 = s := by
  unfold resolveConflict
  split_ifs <;>
    first
      | rfl
      | exact renameNumbered_session _ _ _ s
      | exact truncatePath_session _ _ _ s
      | exact shortenPath_session _ _ _ s

/-- C9 (confirmed): `resolveConflict` and every strategy helper return the
    `ValidationSession` exactly as received — `seenPaths` and
    `seenNamesByParent` are unchanged; only `validatePath` itself records
    paths. -/
theorem c9_strategies_leave_session_unchanged (rules : Rules) (strat : Strategy)
    (digest : String → String) (now p code ext repl : String) (details : Details)
    (maxLen : Nat) (m : List (Char × String)) (s : Session) :
    (resolveConflict rules strat digest now p code details s).2 = s ∧
    (renameNumbered strat p ext s).2 = s ∧
    (renameTimestamp p ext now s).2 = s ∧
    (replaceInvalidChars rules p repl s).2 = s ∧
    (stripInvalidChars rules p s).2 = s ∧
    (encodePath p s).2 = s ∧
    (transliteratePath m p s).2 = s ∧
    (truncatePath p maxLen ext s).2 = s ∧
    (hashPath digest p ext s).2 = s ∧
    (shortenPath p maxLen ext s).2 = s :=
  ⟨resolveConflict_session rules strat digest now p code details s,
   renameNumbered_session strat p ext s, rfl, rfl, rfl, rfl, rfl,
   truncatePath_session p maxLen ext s, rfl,
   shortenPath_session p maxLen ext s⟩

/-! ## Claim C10: the `replace` strategy maps the whole path -/

theorem singleton_default_allowed (c : Char) :
    defaultAllowedTest ⟨[c]⟩ = isDefaultAllowedChar c := by
  simp [defaultAllowedTest]

/-- C10 (confirmed): resolving an `invalidChars` violation with the
    `replace` strategy under the default `allowedChars` pattern substitutes,
    character by character over the *entire* path, every character outside
    the class — including every `/` separator, since `/` is not in the
    default class — so when the replacement string itself contains no `/`,
    the resolved path contains no `/` at all. -/
theorem c10_replace_maps_whole_path (p rc : String) (s : Session)
    (digest : String → String) (now : String) (details : Details)
    (hrc : strHasChar rc '/' = false) :
    (resolveConflict defaultRules
        { defaultStrategy with onInvalidChars := "replace", replacementChar := rc }
        digest now p "invalidChars" details s).1 =
      (⟨(p.data.map (fun c => if isDefaultAllowedChar c then [c] else rc.data)).flatten⟩ : String) ∧
    isDefaultAllowedChar '/' = false ∧
    strHasChar (resolveConflict defaultRules
        { defaultStrategy with onInvalidChars := "replace", replacementChar := rc }
        digest now p "invalidChars" details s).1 '/' = false := by
  have h1 : (resolveConflict defaultRules
      { defaultStrategy with onInvalidChars := "replace", replacementChar := rc }
      digest now p "invalidChars" details s).1 =
      (⟨(p.data.map (fun c => if isDefaultAllowedChar c then [c] else rc.data)).flatten⟩ : String) := by
    show (replaceInvalidChars defaultRules p rc s).1 = _
    unfold replaceInvalidChars
    simp only [defaultRules, singleton_default_allowed]
  refine ⟨h1, by decide, ?_⟩
  rw [h1]
  have hnotin : ('/' : Char) ∉ rc.data := by simpa [strHasChar] using hrc
  unfold strHasChar
  simp only [Bool.eq_false_iff]
  intro hcontains
  have hx : ('/' : Char) ∈
      (p.data.map (fun c => if isDefaultAllowedChar c then [c] else rc.data)).flatten := by
    simpa using hcontains
  obtain ⟨l, hl, hxl⟩ := List.mem_flatten.mp hx
  obtain ⟨c, hc, rfl⟩ := List.mem_map.mp hl
  by_cases hca : isDefaultAllowedChar c
  · simp only [hca, if_true, List.mem_singleton] at hxl
    subst hxl
    exact absurd hca (by decide)
  · simp only [hca, if_false] at hxl
    exact hnotin hxl

/-- C10, witness: the concrete path `root/sub dir` with the default
    replacement character `_` resolves to `root_sub_dir`. -/
theorem c10_replace_maps_whole_path_witness :
    strHasChar "_" '/' = false ∧
    (resolveConflict defaultRules
        { defaultStrategy with onInvalidChars := "replace", replacementChar := "_" }
        noDigest "" "root/sub dir" "invalidChars" { path := "root/sub dir" } emptySession).1 =
      (⟨(("root/sub dir" : String).data.map
          (fun c => if isDefaultAllowedChar c then [c] else ("_" : String).data)).flatten⟩ : String) ∧
    strHasChar (resolveConflict defaultRules
        { defaultStrategy with onInvalidChars := "replace", replacementChar := "_" }
        noDigest "" "root/sub dir" "invalidChars" { path := "root/sub dir" } emptySession).1 '/' = false ∧
    (resolveConflict defaultRules
        { defaultStrategy with onInvalidChars := "replace", replacementChar := "_" }
        noDigest "" "root/sub dir" "invalidChars" { path := "root/sub dir" } emptySession).1 = "root_sub_dir" := by
  have h := c10_replace_maps_whole_path "root/sub dir" "_" emptySession noDigest ""
    { path := "root/sub dir" } (by decide)
  exact ⟨by decide, h.1, h.2.2, by decide⟩

/-! ## Claim C8: transliteration idempotence -/

/-- Flattening a pointwise-fixed map is the identity. -/
theorem flatten_map_fixed {α : Type} (f : α → List α) :
    ∀ (cs : List α), (∀ c ∈ cs, f c = [c]) → (cs.map f).flatten = cs := by
  intro cs
  induction cs with
  | nil => intro h; rfl
  | cons c rest ih =>
    intro h
    rw [List.map_cons, List.flatten_cons, h c (List.mem_cons_self c rest),
      ih (fun d hd => h d (List.mem_cons_of_mem c hd))]
    rfl

/-- A transliteration fixes every string all of whose characters it fixes. -/
theorem transliteratePath_fixed (m : List (Char × String))
    (cs : List Char) (h : ∀ c ∈ cs, transChar m c = ⟨[c]⟩) (s : Session) :
    (transliteratePath m ⟨cs⟩ s).1 = ⟨cs⟩ := by
  show (⟨(cs.map (fun c => (transChar m c).data)).flatten⟩ : String) = ⟨cs⟩
  exact congrArg String.mk
    (flatten_map_fixed (fun c => (transChar m c).data) cs
      (fun c hc => congrArg String.data (h c hc)))

/-- Under the fixed-image condition, every character the transliteration
    emits is itself fixed. -/
theorem transChar_output_fixed (m : List (Char × String))
    (hm : ∀ q ∈ m, ∀ c ∈ q.2.data, transChar m c = ⟨[c]⟩) (c : Char) :
    ∀ d ∈ (transChar m c).data, transChar m d = ⟨[d]⟩ := by
  intro d hd
  cases hfind : m.find? (fun q => q.1 = c) with
  | none =>
    rw [transChar, hfind] at hd
    simp only [Option.map_none'] at hd
    have hdc : d = c := by simpa using hd
    subst hdc
    rw [transChar, hfind]
    rfl
  | some q =>
    rw [transChar, hfind] at hd
    simp only [Option.map_some'] at hd
    by_cases hq : q.2 = ""
    · rw [if_pos hq] at hd
      have hdc : d = c := by simpa using hd
      subst hdc
      rw [transChar, hfind]
      simp [hq]
    · rw [if_neg hq] at hd
      exact hm q (List.mem_of_find?_eq_some hfind) d hd

/-- C8, amended: `transliterate` is idempotent for every map whose value
    characters are themselves unmapped or mapped to themselves (chains such
    as `a → b`, `b → c` — which contain no cycle — break idempotence, see the
    counterexample). -/
theorem c8_transliterate_idempotent (m : List (Char × String)) (p : String)
    (s s' : Session)
    (hm : ∀ q ∈ m, ∀ c ∈ q.2.data, transChar m c = ⟨[c]⟩) :
    (transliteratePath m (transliteratePath m p s).1 s').1 =
      (transliteratePath m p s).1 := by
  have hfix : ∀ d ∈ ((transliteratePath m p s).1).data, transChar m d = ⟨[d]⟩ := by
    intro d hd
    unfold transliteratePath at hd
    simp only at hd
    obtain ⟨l, hl, hxl⟩ := List.mem_flatten.mp hd
    obtain ⟨c, hc, rfl⟩ := List.mem_map.mp hl
    exact transChar_output_fixed m hm c d hxl
  exact transliteratePath_fixed m ((transliteratePath m p s).1).data hfix s'

/-- The chain map `a → b`, `b → c` of the counterexample. -/
def chainMap : List (Char × String) := [('a', "b"), ('b', "c")]

/-- One transliteration edge: `c` occurs in the value the map assigns to
    `k`. -/
def transStepRel (m : List (Char × String)) (k c : Char) : Prop :=
  ∃ v, (m.find? (fun q => q.1 = k)).map (fun q => q.2) = some v ∧ c ∈ v.data

/-- The claim's side condition, "the map contains no cycles": no character
    reaches itself through transliteration edges. -/
def CycleFree (m : List (Char × String)) : Prop :=
  ∀ c, ¬ Relation.TransGen (transStepRel m) c c

/-- Rank function certifying that the chain map is acyclic. -/
def chainRank (c : Char) : Nat := if c = 'a' then 2 else if c = 'b' then 1 else 0

theorem chainMap_step_rank (k c : Char) (h : transStepRel chainMap k c) :
    chainRank c < chainRank k := by
  obtain ⟨v, hv, hc⟩ := h
  by_cases hka : k = 'a'
  · subst hka
    have hfind : (chainMap.find? (fun q => q.1 = 'a')).map (fun q => q.2) = some "b" := by
      decide
    rw [hfind] at hv
    have hvb : v = "b" := by simpa using hv.symm
    subst hvb
    have hcb : c = 'b' := by simpa using hc
    subst hcb
    decide
  · by_cases hkb : k = 'b'
    · subst hkb
      have hfind : (chainMap.find? (fun q => q.1 = 'b')).map (fun q => q.2) = some "c" := by
        decide
      rw [hfind] at hv
      have hvc : v = "c" := by simpa using hv.symm
      subst hvc
      have hcc : c = 'c' := by simpa using hc
      subst hcc
      decide
    · exfalso
      have hfind : (chainMap.find? (fun q => q.1 = k)).map (fun q => q.2) = none := by
        simp [chainMap, List.find?, Ne.symm hka, Ne.symm hkb]
      rw [hfind] at hv
      exact Option.noConfusion hv

/-- A step relation admitting a strictly decreasing rank has no cycles. -/
theorem transGen_rank_lt {α : Type} (step : α → α → Prop) (r : α → Nat)
    (hstep : ∀ x y, step x y → r y < r x) :
    ∀ {x y : α}, Relation.TransGen step x y → r y < r x := by
  intro x y h
  induction h with
  | single h1 => exact hstep _ _ h1
  | tail _ h2 ih => exact lt_trans (hstep _ _ h2) ih

/-- C8, counterexample: the chain map `a → b`, `b → c` contains no cycle,
    yet transliterating `"a"` twice gives `"c"`, not the single-pass result
    `"b"` — the claim fails as stated for cycle-free maps with chains. -/
theorem c8_chain_map_counterexample :
    CycleFree chainMap ∧
    (transliteratePath chainMap (transliteratePath chainMap "a" emptySession).1
        emptySession).1 ≠ (transliteratePath chainMap "a" emptySession).1 := by
  constructor
  · intro c h
    exact absurd (transGen_rank_lt _ chainRank chainMap_step_rank h) (lt_irrefl _)
  · decide

/-- The transliteration map of the specification's scenario. -/
def specMap : List (Char × String) := [('é', "e"), ('@', "at")]

/-- C8, witness: the specification's own map `é → e`, `@ → at` satisfies the
    fixed-image condition and is idempotent on the scenario input. -/
theorem c8_transliterate_idempotent_witness :
    (∀ q ∈ specMap, ∀ c ∈ q.2.data, transChar specMap c = ⟨[c]⟩) ∧
    (transliteratePath specMap
        (transliteratePath specMap "résumé@.txt" emptySession).1 emptySession).1 =
      (transliteratePath specMap "résumé@.txt" emptySession).1 :=
  ⟨by decide, c8_transliterate_idempotent specMap "résumé@.txt" emptySession
    emptySession (by decide)⟩

/-! ## Claim C4: the dots-in-directory check is unreachable -/

theorem handleViolation_code (rules : Rules) (strat : Strategy)
    (digest : String → String) (now code : String) (details : Details)
    (s : Session) :
    (handleViolation rules strat digest now code details s).1.code = code := rfl

/-- C4 (divergence witness, general form): `validatePath` can never report a
    `dotsInDir` violation, for any rules, strategy, path and session: its
    guard conjoins `name.includes(".")` with the negation of the same
    expression (`parts[parts.length - 1]` *is* `name`), so it is identically
    false — `allowDots: false` notwithstanding. -/
theorem c4_dotsInDir_never_reported (rules : Rules) (strat : Strategy)
    (digest : String → String) (now fp : String) (s : Session) :
    ((validatePath rules strat digest now fp s).1).filter
      (fun e => e.code == "dotsInDir") = [] := by
  unfold validatePath
  simp only [List.filter_append, apply_ite Prod.fst, apply_ite (List.filter _),
    List.filter_cons, List.filter_nil, handleViolation_code, beq_iff_eq,
    Bool.and_assoc, Bool.and_not_self, Bool.and_false]
  simp

/-! ## Claim C7: unterminated block comments abort parsing -/

/-- A line that records a block start in the comment scanner: a Python
    triple-quote delimiter, a C-style opener, or a hash toggle. -/
def openerLine (l : String) : Bool :=
  startsPyDelim (jsTrim l) || strStartsWith (jsTrim l) "/*" || isHashToggle (jsTrim l)

/-- The unclosed C-style block error referencing (1-based) line `k + 1`. -/
def cUnclosed (all : List String) (k : Nat) : VError :=
  ⟨"error", "Unclosed C-style comment block", some (k + 1), some (all.getD k "")⟩

theorem vcPy_inC (all : List String) (total : Nat) (l : String) (idx : Nat)
    (st : VCState) : (vcPy all total l idx st).inC = st.inC := by
  unfold vcPy
  split_ifs <;> rfl

theorem vcPy_cases (all : List String) (total : Nat) (l : String) (idx : Nat)
    (st : VCState) :
    (vcPy all total l idx st).startLine = st.startLine ∨
    ((vcPy all total l idx st).startLine = idx ∧ startsPyDelim (jsTrim l) = true) := by
  unfold vcPy
  split_ifs with h1 h2
  · exact Or.inr ⟨rfl, h1⟩
  · exact Or.inl rfl
  · exact Or.inl rfl

theorem vcCOpen_inC (all : List String) (l : String) (idx : Nat) (st : VCState) :
    (vcCOpen all l idx st).inC = (st.inC || strStartsWith (jsTrim l) "/*") := by
  unfold vcCOpen
  split_ifs with h1 h2 <;> simp_all

theorem vcCOpen_cases (all : List String) (l : String) (idx : Nat) (st : VCState) :
    ((vcCOpen all l idx st).startLine = st.startLine ∧
      (vcCOpen all l idx st).inC = st.inC) ∨
    ((vcCOpen all l idx st).startLine = idx ∧ strStartsWith (jsTrim l) "/*" = true) := by
  unfold vcCOpen
  split_ifs with h1 h2
  · exact Or.inr ⟨rfl, h1⟩
  · exact Or.inl ⟨rfl, rfl⟩
  · exact Or.inl ⟨rfl, rfl⟩

theorem vcCClose_not_closer (all : List String) (total : Nat) (l : String)
    (idx : Nat) (st : VCState) (h : strEndsWith (jsTrim l) "*/" = false) :
    vcCClose all total l idx st = st := by
  unfold vcCClose
  simp [h]

theorem vcCClose_startLine (all : List String) (total : Nat) (l : String)
    (idx : Nat) (st : VCState) :
    (vcCClose all total l idx st).startLine = st.startLine := by
  unfold vcCClose
  split_ifs <;> rfl

theorem vcCClose_inC_le (all : List String) (total : Nat) (l : String)
    (idx : Nat) (st : VCState) (h : (vcCClose all total l idx st).inC = true) :
    st.inC = true := by
  unfold vcCClose at h
  split_ifs at h <;> simp_all

theorem vcHash_inC (all : List String) (total : Nat) (l : String) (idx : Nat)
    (st : VCState) : (vcHash all total l idx st).inC = st.inC := by
  unfold vcHash
  split_ifs <;> rfl

theorem vcHash_cases (all : List String) (total : Nat) (l : String) (idx : Nat)
    (st : VCState) :
    (vcHash all total l idx st).startLine = st.startLine ∨
    ((vcHash all total l idx st).startLine = idx ∧ isHashToggle (jsTrim l) = true) := by
  unfold vcHash
  split_ifs with h1 h2
  · exact Or.inr ⟨rfl, h1⟩
  · exact Or.inl rfl
  · exact Or.inl rfl

theorem vcEof_inC (all : List String) (total idx : Nat) (st : VCState) :
    (vcEof all total idx st).inC = st.inC := by
  unfold vcEof
  split_ifs <;> rfl

theorem vcEof_startLine (all : List String) (total idx : Nat) (st : VCState) :
    (vcEof all total idx st).startLine = st.startLine := by
  unfold vcEof
  split_ifs <;> rfl

theorem vcEof_unclosedC (all : List String) (total idx : Nat) (st : VCState)
    (hidx : idx = total - 1) (hc : st.inC = true) :
    cUnclosed all st.startLine ∈ (vcEof all total idx st).errors := by
  unfold vcEof
  rw [if_pos hidx]
  simp only [hc, if_true, cUnclosed, List.mem_append, List.mem_singleton]
  tauto

/-- A comment-scanner state whose recorded start line, when a C block is
    open, is a block-opener line inside the text. -/
def VCGood (all : List String) (total : Nat) (st : VCState) : Prop :=
  st.inC = true → (openerLine (all.getD st.startLine "") = true ∧ st.startLine < total)

theorem vcStep_good (all : List String) (total : Nat) (l : String) (idx : Nat)
    (st : VCState) (hl : l = all.getD idx "") (hidx : idx < total)
    (hg : VCGood all total st) : VCGood all total (vcStep all total l idx st) := by
  intro h5
  have h4c : (vcHash all total l idx (vcCClose all total l idx
      (vcCOpen all l idx (vcPy all total l idx st)))).inC = true := by
    rw [← vcEof_inC all total idx (vcHash all total l idx (vcCClose all total l idx
      (vcCOpen all l idx (vcPy all total l idx st))))]
    exact h5
  have h3c : (vcCClose all total l idx
      (vcCOpen all l idx (vcPy all total l idx st))).inC = true := by
    rw [← vcHash_inC all total l idx (vcCClose all total l idx
      (vcCOpen all l idx (vcPy all total l idx st)))]
    exact h4c
  have h2c : (vcCOpen all l idx (vcPy all total l idx st)).inC = true :=
    vcCClose_inC_le all total l idx _ h3c
  have h5' : (vcStep all total l idx st).startLine =
      (vcHash all total l idx (vcCClose all total l idx
        (vcCOpen all l idx (vcPy all total l idx st)))).startLine :=
    vcEof_startLine all total idx _
  rw [h5']
  rcases vcHash_cases all total l idx (vcCClose all total l idx
      (vcCOpen all l idx (vcPy all total l idx st))) with h4 | ⟨h4, hh⟩
  · rw [h4, vcCClose_startLine]
    rcases vcCOpen_cases all l idx (vcPy all total l idx st) with ⟨h2, h2i⟩ | ⟨h2, hs⟩
    · rw [h2]
      rcases vcPy_cases all total l idx st with h1 | ⟨h1, hp⟩
      · rw [h1]
        have hsc : st.inC = true := by
          rw [← vcPy_inC all total l idx st, ← h2i]
          exact h2c
        exact hg hsc
      · rw [h1, ← hl]
        exact ⟨by simp [openerLine, hp], hidx⟩
    · rw [h2, ← hl]
      exact ⟨by simp [openerLine, hs], hidx⟩
  · rw [h4, ← hl]
    exact ⟨by simp [openerLine, hh], hidx⟩

theorem vcStep_active (all : List String) (total : Nat) (l : String) (idx : Nat)
    (st : VCState) (hl : l = all.getD idx "") (hidx : idx < total)
    (hnc : strEndsWith (jsTrim l) "*/" = false)
    (hg : VCGood all total st)
    (hin : st.inC = true ∨ strStartsWith (jsTrim l) "/*" = true) :
    (vcStep all total l idx st).inC = true ∧
    VCGood all total (vcStep all total l idx st) ∧
    (idx = total - 1 →
      cUnclosed all (vcStep all total l idx st).startLine ∈
        (vcStep all total l idx st).errors) := by
  have h2c : (vcCOpen all l idx (vcPy all total l idx st)).inC = true := by
    rw [vcCOpen_inC, vcPy_inC]
    rcases hin with h | h
    · rw [h]; rfl
    · rw [h]; simp
  have h3eq := vcCClose_not_closer all total l idx (vcCOpen all l idx (vcPy all total l idx st)) hnc
  have h4c : (vcHash all total l idx (vcCClose all total l idx
      (vcCOpen all l idx (vcPy all total l idx st)))).inC = true := by
    rw [vcHash_inC, h3eq]
    exact h2c
  have h5c : (vcStep all total l idx st).inC = true := by
    rw [show (vcStep all total l idx st).inC = _ from vcEof_inC all total idx _]
    exact h4c
  refine ⟨h5c, vcStep_good all total l idx st hl hidx hg, ?_⟩
  intro heof
  rw [show (vcStep all total l idx st).startLine = _ from vcEof_startLine all total idx _]
  exact vcEof_unclosedC all total idx _ heof h4c

theorem drop_cons_facts (all : List String) (idx : Nat) (l : String)
    (rest' : List String) (h : l :: rest' = all.drop idx) :
    all.getD idx "" = l ∧ rest' = all.drop (idx + 1) ∧ idx < all.length := by
  have h1 : all.drop idx = l :: rest' := h.symm
  refine ⟨?_, ?_, ?_⟩
  · have h2 : all[idx]? = some l := by
      rw [← List.head?_drop, h1]
      rfl
    simp [List.getD, h2]
  · have h3 := congrArg List.tail h1
    rw [List.tail_drop] at h3
    exact h3.symm
  · by_contra hge
    rw [List.drop_eq_nil_of_le (Nat.le_of_not_lt hge)] at h1
    exact List.noConfusion h1

theorem vcAux_active (all : List String) : ∀ (rest : List String) (idx : Nat)
    (st : VCState), rest = all.drop idx → rest ≠ [] →
    (∀ j, idx ≤ j → j < all.length →
      strEndsWith (jsTrim (all.getD j "")) "*/" = false) →
    VCGood all all.length st →
    (st.inC = true ∨ strStartsWith (jsTrim (all.getD idx "")) "/*" = true) →
    ∃ k, k < all.length ∧ openerLine (all.getD k "") = true ∧
      cUnclosed all k ∈ (vcAux all all.length rest idx st).errors := by
  intro rest
  induction rest with
  | nil => intro idx st _ hne; exact absurd rfl hne
  | cons l rest' ih =>
    intro idx st hrest hne hcl hg hin
    obtain ⟨hl, hrest', hlen⟩ := drop_cons_facts all idx l rest' hrest
    have hnc : strEndsWith (jsTrim l) "*/" = false := by
      rw [← hl]
      exact hcl idx (Nat.le_refl idx) hlen
    have hin' : st.inC = true ∨ strStartsWith (jsTrim l) "/*" = true := by
      rw [hl] at hin
      exact hin
    obtain ⟨hinC, hgood, heof⟩ :=
      vcStep_active all all.length l idx st hl.symm hlen hnc hg hin'
    rw [vcAux]
    cases rest' with
    | nil =>
      have hidxeq : idx = all.length - 1 := by
        have hlc := congrArg List.length hrest
        rw [List.length_drop] at hlc
        simp at hlc
        omega
      refine ⟨(vcStep all all.length l idx st).startLine,
        (hgood hinC).2, (hgood hinC).1, ?_⟩
      rw [vcAux]
      exact heof hidxeq
    | cons l2 rest'' =>
      exact ih (idx + 1) (vcStep all all.length l idx st) hrest'
        (List.cons_ne_nil l2 rest'')
        (fun j hj hjl => hcl j (Nat.le_of_succ_le hj) hjl) hgood (Or.inl hinC)

theorem vcAux_seek (all : List String) : ∀ (rest : List String) (idx : Nat)
    (st : VCState), rest = all.drop idx →
    (∃ i, idx ≤ i ∧ i < all.length ∧
      strStartsWith (jsTrim (all.getD i "")) "/*" = true ∧
      ∀ j, i ≤ j → j < all.length →
        strEndsWith (jsTrim (all.getD j "")) "*/" = false) →
    VCGood all all.length st →
    ∃ k, k < all.length ∧ openerLine (all.getD k "") = true ∧
      cUnclosed all k ∈ (vcAux all all.length rest idx st).errors := by
  intro rest
  induction rest with
  | nil =>
    intro idx st hrest hex _
    obtain ⟨i, hii, hil, -, -⟩ := hex
    exfalso
    have hge : all.length ≤ idx := by
      by_contra hlt
      have := List.drop_eq_nil_iff.mp hrest.symm
      omega
    omega
  | cons l rest' ih =>
    intro idx st hrest hex hg
    obtain ⟨hl, hrest', hlen⟩ := drop_cons_facts all idx l rest' hrest
    obtain ⟨i, hii, hil, his, hicl⟩ := hex
    by_cases hieq : i = idx
    · subst hieq
      exact vcAux_active all (l :: rest') i st hrest (List.cons_ne_nil l rest')
        hicl hg (Or.inr his)
    · have hlt : idx < i := Nat.lt_of_le_of_ne hii (fun he => hieq he.symm)
      rw [vcAux]
      exact ih (idx + 1) (vcStep all all.length l idx st) hrest'
        ⟨i, hlt, hil, his, hicl⟩
        (vcStep_good all all.length l idx st hl.symm hlen hg)

/-- An unterminated line-starting C-style opener produces the unclosed-block
    error, referencing a block-opener line. -/
theorem validateComments_unclosedC (t : String)
    (h : ∃ i, i < (jsLines t).length ∧
      strStartsWith (jsTrim ((jsLines t).getD i "")) "/*" = true ∧
      ∀ j, i ≤ j → j < (jsLines t).length →
        strEndsWith (jsTrim ((jsLines t).getD j "")) "*/" = false) :
    ∃ k, k < (jsLines t).length ∧ openerLine ((jsLines t).getD k "") = true ∧
      cUnclosed (jsLines t) k ∈ validateComments t := by
  obtain ⟨i, h1, h2, h3⟩ := h
  exact vcAux_seek (jsLines t) (jsLines t) 0 vcInit (by simp)
    ⟨i, Nat.zero_le i, h1, h2, h3⟩ (fun hc => by simp [vcInit] at hc)

/-- Comment-scanner errors are part of every `validateTree` result. -/
theorem validateTree_has_comment_err (t : String) (roots : List TreeNode)
    (e : VError) (he : e ∈ validateComments t) : e ∈ validateTree t roots := by
  unfold validateTree
  dsimp only
  split
  · exact List.mem_append_left _ he
  · simp only [List.mem_append]
    tauto

/-- C7, amended: whenever the comment-stripped text has a line that, once
    trimmed, *starts* a C-style block (`/*`) that no later line closes
    (`*/`), `parseTree` aborts with a structural error: an
    "Unclosed C-style comment block" error is reported whose referenced line
    is a block-opener line of the stripped text, and the parse returns
    `.error` — no forest and no path violations are produced. -/
theorem c7_unclosed_block_aborts (text : String) (cfg : ForgeCfg)
    (h : ∃ i, i < (jsLines (removeMultilineComments text)).length ∧
      strStartsWith (jsTrim ((jsLines (removeMultilineComments text)).getD i "")) "/*" = true ∧
      ∀ j, i ≤ j → j < (jsLines (removeMultilineComments text)).length →
        strEndsWith (jsTrim ((jsLines (removeMultilineComments text)).getD j "")) "*/" = false) :
    (∃ k, k < (jsLines (removeMultilineComments text)).length ∧
      openerLine ((jsLines (removeMultilineComments text)).getD k "") = true ∧
      cUnclosed (jsLines (removeMultilineComments text)) k ∈
        validateComments (removeMultilineComments text)) ∧
    ∃ msg, parseTree text cfg = Except.error msg := by
  have hvc := validateComments_unclosedC (removeMultilineComments text) h
  refine ⟨hvc, ?_⟩
  obtain ⟨k, hk1, hk2, hk3⟩ := hvc
  have hmem : cUnclosed (jsLines (removeMultilineComments text)) k ∈
      validateTree (removeMultilineComments text)
        (buildForest (parseLines text cfg)) :=
    validateTree_has_comment_err _ _ _ hk3
  have hcrit : cUnclosed (jsLines (removeMultilineComments text)) k ∈
      parseCritical text cfg := by
    unfold parseCritical
    refine List.mem_filter.mpr ⟨hmem, ?_⟩
    simp [cUnclosed]
  have hemp : (parseCritical text cfg).isEmpty = false := by
    rcases hq : parseCritical text cfg with _ | ⟨a, as⟩
    · rw [hq] at hcrit
      simp at hcrit
    · rfl
  refine ⟨"Invalid tree structure:\n"
    ++ jsJoin "\n" ((parseCritical text cfg).map fmtVError), ?_⟩
  unfold parseTree
  dsimp only
  rw [hemp]
  simp

set_option maxHeartbeats 2000000 in
/-- C7, counterexample: the input `root\nsub /* oops` contains a C-style
    block opener that is never terminated, yet `parseTree` succeeds — no
    structural error at all — because the scanner only recognises openers at
    the start of a (trimmed) line. -/
theorem c7_inline_opener_counterexample :
    firstIndexOf ("root\nsub /* oops").data "/*".data = some 9 ∧
    firstIndexOf ("root\nsub /* oops").data "*/".data = none ∧
    parseTree "root\nsub /* oops" c3Cfg =
      .ok [TreeNode.mk "root" "root" "dir" [] (some "root"),
           TreeNode.mk "sub /* oops" "sub /* oops" "dir" [] (some "sub /* oops")] :=
  ⟨by decide, by decide, rfl⟩

/-- C7, witness: a line-starting unterminated `/*` makes the parse abort. -/
theorem c7_unclosed_block_aborts_witness :
    (∃ k, k < (jsLines (removeMultilineComments "root\n/* hidden")).length ∧
      openerLine ((jsLines (removeMultilineComments "root\n/* hidden")).getD k "") = true ∧
      cUnclosed (jsLines (removeMultilineComments "root\n/* hidden")) k ∈
        validateComments (removeMultilineComments "root\n/* hidden")) ∧
    ∃ msg, parseTree "root\n/* hidden" c3Cfg = Except.error msg :=
  c7_unclosed_block_aborts "root\n/* hidden" c3Cfg
    ⟨1, by decide, by decide, fun j h1 h2 => by
      have hlen : (jsLines (removeMultilineComments "root\n/* hidden")).length = 2 := by
        decide
      rw [hlen] at h2
      have hj : j = 1 := by omega
      subst hj
      decide⟩
